import Mathlib

/-!
# mameFSM: a verification development

Shallow embedding of `src/mameFSM.hpp`.

* A C++ state class is a record of its three lifecycle members, its
  constructors and its static flag (`StateType`).  Class identity (what
  `std::same_as` compares) is an element of an index type `ι` with decidable
  equality; `Inst T` is the instance-local data of class `T`, `Args T` the
  argument packs accepted by the constructors of `T`.
* Member functions take `this` and `Context&` by reference: they become
  functions returning the new instance data and the new context.
* `requires` clauses and `static_assert`s become hypotheses of the operation
  that carries them: a program violating them has no translation.
* Every Runner operation returns a `Step`: the Runner afterwards, the context
  afterwards, and the lifecycle calls it made, in order.
* Not modelled: exceptions (no member here throws), output to `std::cout`, and
  overflow of `int` fields, which are integers (the tests stay far from it).
* A `float` is an IEEE-754 binary32 value (`F32`): finite values are exact
  multiples of 2^-149 and every operation rounds to nearest, ties to even.
-/

namespace mameFSM

/-! ## Compile-time helpers -/

/-- The variable template `contains_v<T, Ts...>`: the fold
`(std::same_as<T, Ts> || ...)`. -/
def contains_v {ι : Type} [DecidableEq ι] (T : ι) (Ts : List ι) : Bool :=
  Ts.any (fun U => decide (T = U))

/-- The class `Transition<Next, Args...>`: the target is the type index `Next`,
the only data member is the argument tuple `args`. -/
structure Transition {ι : Type} (Args : ι → Type) (Next : ι) where
  args : Args Next

/-- The member alias `Transition::next` (`using next = Next`). -/
def Transition.next {ι : Type} {Args : ι → Type} {Next : ι}
    (_tr : Transition Args Next) : ι := Next

/-- Value category of an argument expression at a call site. -/
inductive ValueCategory where
  | lvalue
  | rvalue
deriving DecidableEq, Repr

/-- Template argument deduced for a forwarding reference `Args&&` of a function
template: `T&` for an lvalue argument, `T` for an rvalue argument. -/
inductive Deduced where
  | lref
  | nonref
deriving DecidableEq, Repr

/-- Deduction of `Args` in `make_transition(Args&&... a)`. -/
def deduce : ValueCategory → Deduced
  | .lvalue => .lref
  | .rvalue => .nonref

/-- The cast `std::forward<Args>(a)`: an lvalue when `Args` is `T&`, an xvalue
otherwise. -/
def forward : Deduced → ValueCategory
  | .lref => .lvalue
  | .nonref => .rvalue

/-- Whether a parameter `D&&` with `D` a non-reference object type (here
`D = std::decay_t<Args>`, a class template parameter, so not a forwarding
reference) binds an argument of the same type and the given category. -/
def binds_rvalue_reference : ValueCategory → Bool
  | .lvalue => false
  | .rvalue => true

/-- The constructor `explicit Transition(Args&&... a)` is viable iff every
parameter binds its argument. -/
def Transition.ctor_viable (cats : List ValueCategory) : Bool :=
  cats.all binds_rvalue_reference

/-- Whether the call `make_transition<Next>(a...)` is well-formed when the
arguments have the given value categories: its body is
`Transition<Next, std::decay_t<Args>...>{std::forward<Args>(a)...}`. -/
def make_transition_viable (cats : List ValueCategory) : Bool :=
  Transition.ctor_viable (cats.map (fun c => forward (deduce c)))

/-- The call `make_transition<Next>(a...)`, when well-formed: the arguments,
decayed to values, are stored in the tuple. -/
def make_transition {ι : Type} {Args : ι → Type} (Next : ι) (a : Args Next) :
    Transition Args Next :=
  Transition.mk a

/-- Return type of an `on_update` member, as far as the Runner inspects it. -/
inductive RetType (ι : Type) where
  /-- the class `Transition<next, ...>` -/
  | transition (next : ι)
  /-- the class `std::variant<Transition<n, ...>...>`, one alternative per n in alts -/
  | variant (alts : List ι)
  /-- any other type -/
  | other

/-- The trait `is_transition_type<T>::value`. -/
def is_transition_type {ι : Type} : RetType ι → Bool
  | .transition _ => true
  | _ => false

/-- The trait `is_variant_of_transitions<T>::value`. -/
def is_variant_of_transitions {ι : Type} : RetType ι → Bool
  | .variant _ => true
  | _ => false

/-- Concept `TransitionType`. -/
def TransitionType {ι : Type} (T : RetType ι) : Bool :=
  is_transition_type T || is_variant_of_transitions T

/-- Target types named by a return type: the `Next` of every Transition class
for which `apply_transition` is instantiated. -/
def RetType.targets {ι : Type} : RetType ι → List ι
  | .transition next => [next]
  | .variant alts => alts
  | .other => []

/-- Values of a return type: a Transition, or a variant given by the index of
the alternative it holds and that alternative. -/
def RetType.Val {ι : Type} (Args : ι → Type) : RetType ι → Type
  | .transition next => Transition Args next
  | .variant alts => (i : Fin alts.length) × Transition Args (alts.get i)
  | .other => Unit

/-- The Transition concretely held by a returned value, with its target. -/
def RetType.Val.held {ι : Type} {Args : ι → Type} :
    (R : RetType ι) → R.Val Args → Option ((Next : ι) × Transition Args Next)
  | .transition next, tr => some ⟨next, tr⟩
  | .variant alts, ⟨i, tr⟩ => some ⟨alts.get i, tr⟩
  | .other, _ => none

/-! ## State classes -/

/-- A class used as a state over `Context`: `I` is its instance-local data,
`A` the argument packs its constructors accept. -/
structure StateType (Context : Type) {ι : Type} (Args : ι → Type) (A I : Type) where
  /-- construction from an argument pack -/
  ctor : A → I
  /-- the empty pack, when the class is default-constructible -/
  empty_pack : Option A
  /-- declared return type of `on_update` -/
  update_ret : RetType ι
  on_enter : I → Context → I × Context
  on_exit : I → Context → I × Context
  on_update : I → Context → update_ret.Val Args × I × Context
  /-- static data member `force_transition_allowed`, when one is declared -/
  force_transition_allowed : Option Bool

/-- The wrapper `ForceTransitionable<Base>`: derives from `Base`, inherits its constructors
(`using Base::Base`) and members, adds no data member, and declares
`static constexpr bool force_transition_allowed = true`. -/
def ForceTransitionable {Context : Type} {ι : Type} {Args : ι → Type} {A I : Type}
    (Base : StateType Context Args A I) : StateType Context Args A I :=
  { Base with force_transition_allowed := some true }

/-- Concept `ForceTransitionableState<T>`: the member exists, converts to
`const bool&`, and is true. -/
def ForceTransitionableState {Context : Type} {ι : Type} {Args : ι → Type} {A I : Type}
    (T : StateType Context Args A I) : Bool :=
  match T.force_transition_allowed with
  | some b => b
  | none => false

/-- How a state class is written in the program text: a struct of its own, or
a specialisation of the wrapper template. -/
inductive ClassDecl (Context : Type) {ι : Type} (Args : ι → Type) (A I : Type) where
  /-- a class written out with its members: `struct S { ... };` -/
  | plain (members : StateType Context Args A I)
  /-- the specialisation `mameFSM::ForceTransitionable<Base>` -/
  | ForceTransitionable (Base : ClassDecl Context Args A I)

/-- The class a declaration denotes. -/
def ClassDecl.type {Context : Type} {ι : Type} {Args : ι → Type} {A I : Type} :
    ClassDecl Context Args A I → StateType Context Args A I
  | .plain members => members
  | .ForceTransitionable Base => mameFSM.ForceTransitionable Base.type

/-- Whether a declaration is a specialisation of `ForceTransitionable`. -/
def ClassDecl.wrapped {Context : Type} {ι : Type} {Args : ι → Type} {A I : Type} :
    ClassDecl Context Args A I → Bool
  | .plain _ => false
  | .ForceTransitionable _ => true

/-- Concept `State<S, Ctx>`: the record already has the three members with
`void` results for enter and exit; what remains is the shape of `on_update`. -/
def State {Context : Type} {ι : Type} {Args : ι → Type} {A I : Type}
    (S : StateType Context Args A I) : Bool :=
  TransitionType S.update_ret

/-! ## Machine definition and Runner -/

/-- The template `FSM<Context, States...>`: the classes of the program and the
declared list, with the `requires (State<States, Context> && ...)` clause. -/
structure FSM (Context : Type) {ι : Type} (Args Inst : ι → Type) (States : List ι) where
  types : (T : ι) → StateType Context Args (Args T) (Inst T)
  requires_State : States.all (fun T => State (types T)) = true

/-- The alias `FSM::FirstState`, element 0 of the declared list. -/
def FSM.FirstState {Context : Type} {ι : Type} {Args Inst : ι → Type} {States : List ι}
    (_M : FSM Context Args Inst States) (h : States ≠ []) : ι :=
  States.head h

/-- The alias `StateVariant = std::variant<std::monostate, States...>`. -/
inductive StateVariant {ι : Type} [DecidableEq ι] (Inst : ι → Type) (States : List ι) where
  | monostate
  | alt (T : ι) (h : contains_v T States = true) (s : Inst T)

/-- The class `FSM::Runner`: its only data member is `current_`. -/
structure Runner {ι : Type} [DecidableEq ι] (Inst : ι → Type) (States : List ι) where
  current_ : StateVariant Inst States

/-- A call the Runner makes on a state class. -/
inductive Call {ι : Type} (Args : ι → Type) where
  | on_enter (T : ι)
  | on_exit (T : ι)
  | on_update (T : ι)
  /-- the call `current_.emplace<T>(a...)`: the old payload is destroyed and a
  `T` is built from `a` -/
  | construct (T : ι) (a : Args T)

/-- Result of a Runner operation. -/
structure Step (Context : Type) {ι : Type} [DecidableEq ι] (Args Inst : ι → Type)
    (States : List ι) where
  runner : Runner Inst States
  ctx : Context
  calls : List (Call Args)

section Ops

variable {Context : Type} {ι : Type} [DecidableEq ι] {Args Inst : ι → Type} {States : List ι}

/-- The member `Runner::switch_to<Target>(ctx, a...)`. -/
def Runner.switch_to (M : FSM Context Args Inst States) (r : Runner Inst States)
    (Target : ι) (h : contains_v Target States = true) (ctx : Context) (a : Args Target) :
    Step Context Args Inst States :=
  let exited : Context × List (Call Args) :=
    match r.current_ with
    | .monostate => (ctx, [])
    | .alt Cur _ s => (((M.types Cur).on_exit s ctx).2, [Call.on_exit Cur])
  let entered := (M.types Target).on_enter ((M.types Target).ctor a) exited.1
  { runner := ⟨.alt Target h entered.1⟩
    ctx := entered.2
    calls := exited.2 ++ [Call.construct Target a, Call.on_enter Target] }

/-- The member `Runner::apply_transition<Cur>(ctx, tr)`; `h` is its `static_assert`. -/
def Runner.apply_transition (M : FSM Context Args Inst States) (r : Runner Inst States)
    (Cur : ι) {Next : ι} (tr : Transition Args Next) (h : contains_v Next States = true)
    (ctx : Context) : Step Context Args Inst States :=
  if ¬ (Next = Cur) then
    r.switch_to M Next h ctx tr.args
  else
    { runner := r, ctx := ctx, calls := [] }

/-- The `static_assert`s of every `apply_transition` that `update` instantiates:
one per declared state and per Transition class in its `on_update` type. -/
def FSM.targets_declared (M : FSM Context Args Inst States) : Bool :=
  States.all (fun T => (M.types T).update_ret.targets.all (fun Next => contains_v Next States))

/-- Lines 113-124 of `update`: the `if constexpr` chain on the type of `tr`. -/
def Runner.dispatch (M : FSM Context Args Inst States) (r : Runner Inst States) (Cur : ι) :
    (Tr : RetType ι) → (∀ Next ∈ Tr.targets, contains_v Next States = true) →
      Tr.Val Args → Context → Step Context Args Inst States
  | .transition next, h, tr, ctx =>
      r.apply_transition M Cur tr (h next (List.mem_singleton.mpr rfl)) ctx
  | .variant alts, h, ⟨i, actual_tr⟩, ctx =>
      r.apply_transition M Cur actual_tr (h (alts.get i) (List.get_mem alts i.1 i.2)) ctx
  | .other, _, _, ctx => { runner := r, ctx := ctx, calls := [] }

/-- The member `Runner::update(ctx)`. -/
def Runner.update (M : FSM Context Args Inst States) (hsa : M.targets_declared = true)
    (r : Runner Inst States) (ctx : Context) : Step Context Args Inst States :=
  match r.current_ with
  | .monostate => { runner := r, ctx := ctx, calls := [] }
  | .alt Cur hCur cur_state =>
    let res := (M.types Cur).on_update cur_state ctx
    let st := Runner.dispatch M ⟨.alt Cur hCur res.2.1⟩ Cur (M.types Cur).update_ret
      (fun Next hN =>
        List.all_eq_true.mp
          (List.all_eq_true.mp hsa Cur
            (by
              obtain ⟨U, hU, hTU⟩ := List.any_eq_true.mp hCur
              rw [of_decide_eq_true hTU]
              exact hU))
          Next hN)
      res.1 res.2.2
    { st with calls := Call.on_update Cur :: st.calls }

/-- The constructor `Runner::Runner(ctx)` of `Runner<InitialState>`: `current_`
starts as the first alternative, `std::monostate`, then
`switch_to<InitialState>(ctx)`. -/
def Runner.ctor (M : FSM Context Args Inst States) (InitialState : ι)
    (h : contains_v InitialState States = true)
    (hd : (M.types InitialState).empty_pack.isSome = true) (ctx : Context) :
    Step Context Args Inst States :=
  Runner.switch_to M ⟨.monostate⟩ InitialState h ctx ((M.types InitialState).empty_pack.get hd)

/-- The clause `requires ForceTransitionableState<Target> && contains_v<Target, States...>`
of `force_transition`. -/
def FSM.force_transition_requires (M : FSM Context Args Inst States) (Target : ι) : Bool :=
  ForceTransitionableState (M.types Target) && contains_v Target States

/-- The member `Runner::force_transition<Target>(ctx)`. -/
def Runner.force_transition (M : FSM Context Args Inst States) (r : Runner Inst States)
    (Target : ι) (hreq : M.force_transition_requires Target = true)
    (hd : (M.types Target).empty_pack.isSome = true) (ctx : Context) :
    Step Context Args Inst States :=
  r.switch_to M Target (Bool.and_eq_true_iff.mp hreq).2 ctx ((M.types Target).empty_pack.get hd)

/-- The member `Runner::is_in_state<T>()`: `std::holds_alternative<T>(current_)`. -/
def Runner.is_in_state (r : Runner Inst States) (T : ι) : Bool :=
  match r.current_ with
  | .monostate => false
  | .alt Cur _ _ => decide (Cur = T)

/-- The destructor of `Runner`: none is declared, and the class keeps no
reference to a context, so the implicit one only destroys `current_` and its
payload. It makes no lifecycle call. -/
def Runner.dtor (_r : Runner Inst States) : List (Call Args) :=
  []

/-- What calling code does with a constructed Runner and its context. -/
inductive Op (M : FSM Context Args Inst States) where
  /-- the call `fsm.update(ctx)` -/
  | update (hsa : M.targets_declared = true)
  /-- the call `fsm.force_transition<Target>(ctx)` -/
  | force_transition (Target : ι) (hreq : M.force_transition_requires Target = true)
      (hd : (M.types Target).empty_pack.isSome = true)
  /-- the caller writes to its own context between two calls -/
  | caller (f : Context → Context)

/-- Run one operation after a step, appending the calls it makes. -/
def Runner.exec (M : FSM Context Args Inst States) (st : Step Context Args Inst States) :
    Op M → Step Context Args Inst States
  | .update hsa =>
      let st1 := st.runner.update M hsa st.ctx
      { st1 with calls := st.calls ++ st1.calls }
  | .force_transition Target hreq hd =>
      let st1 := st.runner.force_transition M Target hreq hd st.ctx
      { st1 with calls := st.calls ++ st1.calls }
  | .caller f => { st with ctx := f st.ctx }

/-- Run a sequence of operations. -/
def Runner.run (M : FSM Context Args Inst States) (st : Step Context Args Inst States)
    (ops : List (Op M)) : Step Context Args Inst States :=
  ops.foldl (Runner.exec M) st

/-- All lifecycle calls of a Runner from its constructor, through a sequence of
operations, to its destructor. -/
def Runner.life (M : FSM Context Args Inst States) (InitialState : ι)
    (h : contains_v InitialState States = true)
    (hd : (M.types InitialState).empty_pack.isSome = true) (ctx : Context)
    (ops : List (Op M)) : List (Call Args) :=
  let st := Runner.run M (Runner.ctor M InitialState h hd ctx) ops
  st.calls ++ st.runner.dtor

/-- Where the payload of `current_` stands in its lifecycle. -/
inductive Phase (ι : Type) where
  /-- no state instance exists (`std::monostate`) -/
  | empty
  /-- an instance of T was constructed and has received no call yet -/
  | constructed (T : ι)
  /-- the instance of T received `on_enter` and not yet `on_exit` -/
  | entered (T : ι)
  /-- the instance of T received `on_exit` -/
  | exited (T : ι)
deriving DecidableEq

/-- One call seen by the bracket discipline: a construction replaces nothing or
an exited instance, `on_enter` comes first and once, `on_update` only between
`on_enter` and `on_exit`, `on_exit` once. Anything else is a violation. -/
def Phase.step : Phase ι → Call Args → Option (Phase ι)
  | .empty, .construct T _ => some (.constructed T)
  | .exited _, .construct T _ => some (.constructed T)
  | .constructed T, .on_enter U => if T = U then some (.entered T) else none
  | .entered T, .on_update U => if T = U then some (.entered T) else none
  | .entered T, .on_exit U => if T = U then some (.exited T) else none
  | _, _ => none

/-- Follow a list of calls from a phase; `none` on a violation. -/
def Phase.follow : Phase ι → List (Call Args) → Option (Phase ι)
  | p, [] => some p
  | p, c :: cs => (Phase.step p c).bind (fun q => Phase.follow q cs)

/-- Every instance of a complete call list has its full bracket: the list
obeys the discipline and leaves no instance entered and not exited. -/
def Phase.all_closed (calls : List (Call Args)) : Bool :=
  match Phase.follow (Phase.empty : Phase ι) calls with
  | some .empty => true
  | some (.exited _) => true
  | _ => false

end Ops

/-! ## The type `int` -/

/-- The largest value of the type `int`, which has 32 bits on the targets of
the repository. -/
def INT_MAX : Int := 2147483647

/-- The smallest value of the type `int`. -/
def INT_MIN : Int := -2147483648

/-- The `int` that holds an exact arithmetic result: the result itself when it
lies between INT_MIN and INT_MAX, otherwise the value of that range congruent
to it modulo 2^32. Signed overflow is undefined behaviour in C++; the model
takes the two's-complement wrap of the usual targets, and every statement that
relies on the exact result names the range in which there is no overflow. -/
def int_wrap (x : Int) : Int :=
  (x + 2147483648) % 4294967296 - 2147483648

/-- The sum of two values of type `int`, as `++` and `+=` store it. -/
def int_add (a b : Int) : Int :=
  int_wrap (a + b)

/-! ## The machines of the test suite -/

namespace TestBasicFsm

/-- The struct `TestContext` of `tests/test_basic_fsm.cpp`. The field `value` has
type `int`: it holds an integer between INT_MIN and INT_MAX, and the state
classes store into it with `int_add`. -/
structure TestContext where
  value : Int := 0
  enter_called : Bool := false
  exit_called : Bool := false
  update_called : Bool := false
  should_transition : Bool := false
deriving DecidableEq, Repr

/-- The state classes of the translation unit. -/
inductive StateId where
  | StateA
  | StateB
deriving DecidableEq, Repr

/-- No state class declares a constructor: the only pack is the empty one. -/
abbrev Args : StateId → Type := fun _ => Unit

/-- No state class has data members. -/
abbrev Inst : StateId → Type := fun _ => Unit

/-- The alias `TestTransition`. -/
abbrev TestTransition : RetType StateId := .variant [.StateA, .StateB]

/-- The struct `StateA`. -/
def StateA : StateType TestContext Args Unit Unit where
  ctor := fun _ => ()
  empty_pack := some ()
  update_ret := TestTransition
  on_enter := fun s ctx => (s, { ctx with enter_called := true, value := 1 })
  on_exit := fun s ctx => (s, { ctx with exit_called := true })
  on_update := fun s ctx =>
    let ctx1 := { ctx with update_called := true }
    let ctx2 := { ctx1 with value := int_add ctx1.value 1 }
    if ctx2.should_transition then
      (⟨⟨1, by decide⟩, make_transition StateId.StateB ()⟩, s, ctx2)
    else
      (⟨⟨0, by decide⟩, make_transition StateId.StateA ()⟩, s, ctx2)
  force_transition_allowed := none

/-- The struct `StateB`. -/
def StateB : StateType TestContext Args Unit Unit where
  ctor := fun _ => ()
  empty_pack := some ()
  update_ret := TestTransition
  on_enter := fun s ctx => (s, { ctx with enter_called := true, value := 10 })
  on_exit := fun s ctx => (s, { ctx with exit_called := true })
  on_update := fun s ctx =>
    let ctx1 := { ctx with update_called := true }
    let ctx2 := { ctx1 with value := int_add ctx1.value 10 }
    if ctx2.should_transition then
      (⟨⟨0, by decide⟩, make_transition StateId.StateA ()⟩, s, ctx2)
    else
      (⟨⟨1, by decide⟩, make_transition StateId.StateB ()⟩, s, ctx2)
  force_transition_allowed := none

/-- The alias `TestFSM = mameFSM::FSM<TestContext, StateA, StateB>`. -/
def TestFSM : FSM TestContext Args Inst [.StateA, .StateB] where
  types := fun T =>
    match T with
    | .StateA => StateA
    | .StateB => StateB
  requires_State := by decide

/-- A machine that is not in the test suite: `mameFSM::FSM<TestContext, StateA>`,
the classes of the test with StateB left out of the declared list, although
`StateA::on_update` can return a `Transition<StateB>`. -/
def StateAOnlyFSM : FSM TestContext Args Inst [.StateA] where
  types := fun T =>
    match T with
    | .StateA => StateA
    | .StateB => StateB
  requires_State := by decide

end TestBasicFsm

namespace TestForceTransition

/-- The struct `ForceContext` of `tests/test_force_transition.cpp`. The field
`value` has type `int`: it holds an integer between INT_MIN and INT_MAX, and
the state classes store into it with `int_add`. -/
structure ForceContext where
  value : Int := 0
  last_state : String := ""
deriving DecidableEq, Repr

/-- The state classes of the translation unit; `EmergencyState` is the alias
of `ForceTransitionable<EmergencyStateBase>`. -/
inductive StateId where
  | NormalState
  | ProtectedState
  | EmergencyStateBase
  | EmergencyState
deriving DecidableEq, Repr

/-- No state class declares a constructor: the only pack is the empty one. -/
abbrev Args : StateId → Type := fun _ => Unit

/-- No state class has data members. -/
abbrev Inst : StateId → Type := fun _ => Unit

/-- The alias `ForceTransition` (the variant of the three transitions). -/
abbrev ForceTransition : RetType StateId :=
  .variant [.NormalState, .ProtectedState, .EmergencyState]

/-- The struct `NormalState`. -/
def NormalState : StateType ForceContext Args Unit Unit where
  ctor := fun _ => ()
  empty_pack := some ()
  update_ret := ForceTransition
  on_enter := fun s ctx => (s, { ctx with last_state := "Normal", value := 100 })
  on_exit := fun s ctx => (s, ctx)
  on_update := fun s ctx =>
    (⟨⟨0, by decide⟩, make_transition StateId.NormalState ()⟩, s,
      { ctx with value := int_add ctx.value 1 })
  force_transition_allowed := none

/-- The struct `ProtectedState`. -/
def ProtectedState : StateType ForceContext Args Unit Unit where
  ctor := fun _ => ()
  empty_pack := some ()
  update_ret := ForceTransition
  on_enter := fun s ctx => (s, { ctx with last_state := "Protected", value := 200 })
  on_exit := fun s ctx => (s, ctx)
  on_update := fun s ctx =>
    (⟨⟨1, by decide⟩, make_transition StateId.ProtectedState ()⟩, s,
      { ctx with value := int_add ctx.value 2 })
  force_transition_allowed := none

/-- The struct `EmergencyStateBase`. -/
def EmergencyStateBase : StateType ForceContext Args Unit Unit where
  ctor := fun _ => ()
  empty_pack := some ()
  update_ret := ForceTransition
  on_enter := fun s ctx => (s, { ctx with last_state := "Emergency", value := 999 })
  on_exit := fun s ctx => (s, ctx)
  on_update := fun s ctx =>
    (⟨⟨0, by decide⟩, make_transition StateId.NormalState ()⟩, s, { ctx with value := 0 })
  force_transition_allowed := none

/-- The program text of each class; `EmergencyState` is
`using EmergencyState = mameFSM::ForceTransitionable<EmergencyStateBase>`. -/
def decl : StateId → ClassDecl ForceContext Args Unit Unit
  | .NormalState => .plain NormalState
  | .ProtectedState => .plain ProtectedState
  | .EmergencyStateBase => .plain EmergencyStateBase
  | .EmergencyState => .ForceTransitionable (.plain EmergencyStateBase)

/-- The class `EmergencyState`. -/
def EmergencyState : StateType ForceContext Args Unit Unit :=
  (decl .EmergencyState).type

/-- The alias `TestFSM = FSM<ForceContext, NormalState, ProtectedState, EmergencyState>`. -/
def TestFSM : FSM ForceContext Args Inst [.NormalState, .ProtectedState, .EmergencyState] where
  types := fun T => (decl T).type
  requires_State := by decide

end TestForceTransition

namespace SimpleWorking

/-- The struct `Context` of `samples/simple_working.cpp`. The field `counter`
has type `int`: it holds an integer between INT_MIN and INT_MAX, and the state
classes store into it with `int_add`. -/
structure Context where
  counter : Int := 0
deriving DecidableEq, Repr

/-- The state classes of the sample. -/
inductive StateId where
  | StateA
  | StateB
  | StateC
deriving DecidableEq, Repr

/-- No state class declares a constructor: the only pack is the empty one. -/
abbrev Args : StateId → Type := fun _ => Unit

/-- No state class has data members. -/
abbrev Inst : StateId → Type := fun _ => Unit

/-- The struct `StateA`; its `on_update` has a deduced return type, the single
class `Transition<StateB>`. Output to `std::cout` is not part of the model. -/
def StateA : StateType Context Args Unit Unit where
  ctor := fun _ => ()
  empty_pack := some ()
  update_ret := .transition .StateB
  on_enter := fun s ctx => (s, ctx)
  on_exit := fun s ctx => (s, ctx)
  on_update := fun s ctx =>
    (make_transition StateId.StateB (), s, { ctx with counter := int_add ctx.counter 1 })
  force_transition_allowed := none

/-- The struct `StateB`, always leaving for StateC. -/
def StateB : StateType Context Args Unit Unit where
  ctor := fun _ => ()
  empty_pack := some ()
  update_ret := .transition .StateC
  on_enter := fun s ctx => (s, ctx)
  on_exit := fun s ctx => (s, ctx)
  on_update := fun s ctx =>
    (make_transition StateId.StateC (), s, { ctx with counter := int_add ctx.counter 1 })
  force_transition_allowed := none

/-- The struct `StateC`, always leaving for StateA. -/
def StateC : StateType Context Args Unit Unit where
  ctor := fun _ => ()
  empty_pack := some ()
  update_ret := .transition .StateA
  on_enter := fun s ctx => (s, ctx)
  on_exit := fun s ctx => (s, ctx)
  on_update := fun s ctx =>
    (make_transition StateId.StateA (), s, { ctx with counter := int_add ctx.counter 1 })
  force_transition_allowed := none

/-- The alias `SimpleFSM = mameFSM::FSM<Context, StateA, StateB, StateC>`. -/
def SimpleFSM : FSM Context Args Inst [.StateA, .StateB, .StateC] where
  types := fun T =>
    match T with
    | .StateA => StateA
    | .StateB => StateB
    | .StateC => StateC
  requires_State := by decide

/-- Comparison class, not part of the sample: `StateA` with the return type of
`on_update` declared as the closed set
`std::variant<Transition<StateA>, Transition<StateB>, Transition<StateC>>`,
returning the same transition inside it. -/
def StateA_variant : StateType Context Args Unit Unit where
  ctor := fun _ => ()
  empty_pack := some ()
  update_ret := .variant [.StateA, .StateB, .StateC]
  on_enter := fun s ctx => (s, ctx)
  on_exit := fun s ctx => (s, ctx)
  on_update := fun s ctx =>
    (⟨⟨1, by decide⟩, make_transition StateId.StateB ()⟩, s,
      { ctx with counter := int_add ctx.counter 1 })
  force_transition_allowed := none

/-- The machine of the sample with `StateA_variant` in the place of `StateA`. -/
def SimpleFSM_variant : FSM Context Args Inst [.StateA, .StateB, .StateC] where
  types := fun T =>
    match T with
    | .StateA => StateA_variant
    | .StateB => StateB
    | .StateC => StateC
  requires_State := by decide

/-- The state the sample is expected in after n updates: StateA, StateB or
StateC as n leaves remainder 0, 1 or 2 when divided by 3. -/
def cycle_state (n : Nat) : StateId :=
  match n % 3 with
  | 0 => .StateA
  | 1 => .StateB
  | _ => .StateC

end SimpleWorking

/-! ## Single-precision floats -/

/-- A value of the C++ type `float` (IEEE-754 binary32). A finite value is the
integer `k` times 2^-149, the smallest positive subnormal, so that every finite
float is such a value; the two zeros are one value. The operations below round
to nearest, ties to even, and only produce representable values. -/
inductive F32 where
  | finite (k : Int)
  | inf (negative : Bool)
  | nan
deriving DecidableEq, Repr

/-- Binary search for the position of the leading bit, over the given widths. -/
def F32.log2Aux : List Nat → Nat → Nat → Nat
  | [], _, acc => acc
  | s :: ss, n, acc =>
    if 2 ^ s ≤ n then F32.log2Aux ss (n / 2 ^ s) (acc + s) else F32.log2Aux ss n acc

/-- Position of the leading bit of a positive number below 2^512. -/
def F32.log2 (n : Nat) : Nat :=
  F32.log2Aux [256, 128, 64, 32, 16, 8, 4, 2, 1] n 0

/-- Rounding of a magnitude to 24 significant bits, to nearest, ties to even. -/
def F32.roundNat (n : Nat) : Nat :=
  if n < 2 ^ 24 then n
  else
    let p := F32.log2 n - 23
    let q := n / 2 ^ p
    let rem := n % 2 ^ p
    let half := 2 ^ (p - 1)
    if rem < half then q * 2 ^ p
    else if rem = half then (if q % 2 = 0 then q * 2 ^ p else (q + 1) * 2 ^ p)
    else (q + 1) * 2 ^ p

/-- Rounding of an exact result to a float; a magnitude that rounds to 2^128 or
more overflows to an infinity. -/
def F32.round (k : Int) : F32 :=
  if 2 ^ 128 * 2 ^ 149 ≤ F32.roundNat k.natAbs then .inf (decide (k < 0))
  else .finite (if k < 0 then -(F32.roundNat k.natAbs : Int) else (F32.roundNat k.natAbs : Int))

/-- Addition of floats, the operator `+`. -/
def F32.add : F32 → F32 → F32
  | .finite a, .finite b => F32.round (a + b)
  | .nan, _ => .nan
  | _, .nan => .nan
  | .inf a, .inf b => if a = b then .inf a else .nan
  | .inf a, .finite _ => .inf a
  | .finite _, .inf b => .inf b

/-- Negation of a float. -/
def F32.neg : F32 → F32
  | .finite a => .finite (-a)
  | .inf a => .inf (!a)
  | .nan => .nan

/-- Subtraction of floats, the operator `-`. -/
def F32.sub (a b : F32) : F32 :=
  F32.add a (F32.neg b)

/-- Comparison of floats, the operator `<=`; false when an operand is a NaN. -/
def F32.le : F32 → F32 → Bool
  | .finite a, .finite b => decide (a ≤ b)
  | .nan, _ => false
  | _, .nan => false
  | .inf true, _ => true
  | _, .inf false => true
  | .inf false, _ => false
  | .finite _, .inf true => false

/-- Comparison of floats, the operator `<`; false when an operand is a NaN. -/
def F32.lt : F32 → F32 → Bool
  | .finite a, .finite b => decide (a < b)
  | .nan, _ => false
  | _, .nan => false
  | .inf true, .inf true => false
  | .inf true, _ => true
  | .inf false, _ => false
  | .finite _, .inf false => true
  | .finite _, .inf true => false

/-- The values of the model that are values of the type `float`: the
infinities, NaN, and the finite values that rounding leaves as they are, which
have at most 24 significant bits and a magnitude below 2^128. -/
def F32.is_float : F32 → Bool
  | .finite k => decide (F32.round k = .finite k)
  | _ => true

/-- The float of a natural number of units 2^-149, when it is representable. -/
def F32.ofUnits (n : Nat) : F32 :=
  .finite (n : Int)

/-- The value `0.0f`, also what the `int` literal `0` converts to. -/
def F32.zero : F32 := F32.ofUnits 0

/-- The literal `0.1f`: the float nearest to one tenth, 13421773 times 2^-27. -/
def F32.tenth : F32 := F32.ofUnits (13421773 * 2 ^ 122)

/-- The literal `0.5f`. -/
def F32.half : F32 := F32.ofUnits (2 ^ 148)

/-- The literal `1.0f`. -/
def F32.one : F32 := F32.ofUnits (2 ^ 149)

/-- The literal `3.0f`. -/
def F32.three : F32 := F32.ofUnits (3 * 2 ^ 149)

/-- The literal `10.0f`. -/
def F32.ten : F32 := F32.ofUnits (10 * 2 ^ 149)

/-! ## The machines of the hierarchical test -/

namespace TestHierarchicalFsm

/-- The struct `HierContext` of `tests/test_hierarchical_fsm.cpp`. -/
structure HierContext where
  speed : F32 := F32.zero
  walking : Bool := false
  running : Bool := false
  parent_state : Int := 0
  sub_state : Int := 0
  should_run : Bool := false
deriving DecidableEq, Repr

/-- The state classes of the nested machine. -/
inductive SubId where
  | SubWalk
  | SubRun
deriving DecidableEq, Repr

/-- No nested state class declares a constructor. -/
abbrev SubArgs : SubId → Type := fun _ => Unit

/-- No nested state class has data members. -/
abbrev SubInst : SubId → Type := fun _ => Unit

/-- The alias `SubTransition`. -/
abbrev SubTransition : RetType SubId := .variant [.SubWalk, .SubRun]

/-- The struct `SubWalk`. -/
def SubWalk : StateType HierContext SubArgs Unit Unit where
  ctor := fun _ => ()
  empty_pack := some ()
  update_ret := SubTransition
  on_enter := fun s ctx =>
    (s, { ctx with walking := true, running := false, speed := F32.three, sub_state := 1 })
  on_exit := fun s ctx => (s, { ctx with walking := false })
  on_update := fun s ctx =>
    let ctx1 := { ctx with speed := F32.add ctx.speed F32.tenth }
    if ctx1.should_run then
      (⟨⟨1, by decide⟩, make_transition SubId.SubRun ()⟩, s, ctx1)
    else
      (⟨⟨0, by decide⟩, make_transition SubId.SubWalk ()⟩, s, ctx1)
  force_transition_allowed := none

/-- The struct `SubRun`. -/
def SubRun : StateType HierContext SubArgs Unit Unit where
  ctor := fun _ => ()
  empty_pack := some ()
  update_ret := SubTransition
  on_enter := fun s ctx =>
    (s, { ctx with walking := false, running := true, speed := F32.ten, sub_state := 2 })
  on_exit := fun s ctx => (s, { ctx with running := false })
  on_update := fun s ctx =>
    let ctx1 := { ctx with speed := F32.sub ctx.speed F32.half }
    if F32.le ctx1.speed F32.three then
      (⟨⟨0, by decide⟩, make_transition SubId.SubWalk ()⟩, s, ctx1)
    else
      (⟨⟨1, by decide⟩, make_transition SubId.SubRun ()⟩, s, ctx1)
  force_transition_allowed := none

/-- The alias `SubFSM = mameFSM::FSM<HierContext, SubWalk, SubRun>`. -/
def SubFSM : FSM HierContext SubArgs SubInst [.SubWalk, .SubRun] where
  types := fun T =>
    match T with
    | .SubWalk => SubWalk
    | .SubRun => SubRun
  requires_State := by decide

/-- The state classes of the parent machine. -/
inductive ParentId where
  | IdleState
  | MovingState
deriving DecidableEq, Repr

/-- No parent state class declares a constructor. -/
abbrev ParentArgs : ParentId → Type := fun _ => Unit

/-- The type `SubFSM::Runner<SubWalk>`. -/
abbrev SubRunner : Type := Runner SubInst [SubId.SubWalk, SubId.SubRun]

/-- Data members: none in `IdleState`; in `MovingState` the member
`std::optional<SubFSM::Runner<SubWalk>> sub_fsm`. -/
abbrev ParentInst : ParentId → Type
  | .IdleState => Unit
  | .MovingState => Option SubRunner

/-- The alias `ParentTransition`. -/
abbrev ParentTransition : RetType ParentId := .variant [.IdleState, .MovingState]

/-- The struct `IdleState`. -/
def IdleState : StateType HierContext ParentArgs Unit Unit where
  ctor := fun _ => ()
  empty_pack := some ()
  update_ret := ParentTransition
  on_enter := fun s ctx => (s, { ctx with parent_state := 1 })
  on_exit := fun s ctx => (s, ctx)
  on_update := fun s ctx =>
    if F32.lt F32.zero ctx.speed then
      (⟨⟨1, by decide⟩, make_transition ParentId.MovingState ()⟩, s, ctx)
    else
      (⟨⟨0, by decide⟩, make_transition ParentId.IdleState ()⟩, s, ctx)
  force_transition_allowed := none

/-- The call `sub_fsm.emplace(ctx)` of `MovingState::on_enter`: the constructor
of `SubFSM::Runner<SubWalk>` on the context. -/
def sub_fsm_emplace (ctx : HierContext) : Step HierContext SubArgs SubInst [.SubWalk, .SubRun] :=
  Runner.ctor SubFSM SubId.SubWalk (by decide) (by decide) ctx

/-- The call `sub_fsm->update(ctx)` of `MovingState::on_update`. -/
def sub_fsm_update (sub : SubRunner) (ctx : HierContext) :
    Step HierContext SubArgs SubInst [.SubWalk, .SubRun] :=
  Runner.update SubFSM (by decide) sub ctx

/-- The struct `MovingState`; a default-constructed instance has an empty
`sub_fsm`. -/
def MovingState : StateType HierContext ParentArgs Unit (Option SubRunner) where
  ctor := fun _ => none
  empty_pack := some ()
  update_ret := ParentTransition
  on_enter := fun _ ctx =>
    let ctx1 := { ctx with parent_state := 2 }
    let st := sub_fsm_emplace ctx1
    (some st.runner, st.ctx)
  on_exit := fun sub_fsm ctx =>
    let sub_fsm1 : Option SubRunner :=
      match sub_fsm with
      | some _ => none
      | none => none
    (sub_fsm1, { ctx with sub_state := 0, walking := false, running := false })
  on_update := fun sub_fsm ctx =>
    let nested : Option SubRunner × HierContext :=
      match sub_fsm with
      | some sub => (some (sub_fsm_update sub ctx).runner, (sub_fsm_update sub ctx).ctx)
      | none => (none, ctx)
    if F32.le nested.2.speed F32.zero then
      (⟨⟨0, by decide⟩, make_transition ParentId.IdleState ()⟩, nested.1, nested.2)
    else
      (⟨⟨1, by decide⟩, make_transition ParentId.MovingState ()⟩, nested.1, nested.2)
  force_transition_allowed := none

/-- The alias `ParentFSM = mameFSM::FSM<HierContext, IdleState, MovingState>`. -/
def ParentFSM : FSM HierContext ParentArgs ParentInst [.IdleState, .MovingState] where
  types := fun T =>
    match T with
    | .IdleState => IdleState
    | .MovingState => MovingState
  requires_State := by decide

/-- A machine that is not in the test suite: the parent machine with
`MovingState` given the marker, as in
`using MovingState = mameFSM::ForceTransitionable<MovingStateBase>`, so that it
can be the target of `force_transition`. It is the one marked state here that
has instance data. -/
def MarkedParentFSM : FSM HierContext ParentArgs ParentInst [.IdleState, .MovingState] where
  types := fun T =>
    match T with
    | .IdleState => IdleState
    | .MovingState => ForceTransitionable MovingState
  requires_State := by decide

end TestHierarchicalFsm

/-! ## The capability contract as the concepts see it -/

/-- Type of an expression after `std::decay_t`, as far as the traits and
concepts of the header inspect it. -/
inductive CppType (ι : Type) where
  /-- the type `void` -/
  | void
  /-- a class `Transition<next, ...>` -/
  | transition (next : ι)
  /-- a class `std::variant<alts...>` -/
  | variant (alts : List (CppType ι))
  /-- any other type -/
  | other

/-- The test `std::same_as<void>` of a compound requirement. -/
def CppType.is_void {ι : Type} : CppType ι → Bool
  | .void => true
  | _ => false

/-- The trait `is_transition_type<T>::value` on any type: the primary template
is `std::false_type`, the partial specialisation for `Transition<N, A...>` is
`std::true_type`. -/
def CppType.is_transition_type {ι : Type} : CppType ι → Bool
  | .transition _ => true
  | _ => false

/-- The trait `is_variant_of_transitions<T>::value` on any type: false on the
primary template, the fold `(is_transition_type<Ts>::value && ...)` on
`std::variant<Ts...>`. -/
def CppType.is_variant_of_transitions {ι : Type} : CppType ι → Bool
  | .variant alts => alts.all CppType.is_transition_type
  | _ => false

/-- Concept `TransitionType` on any type. -/
def CppType.TransitionType {ι : Type} (T : CppType ι) : Bool :=
  T.is_transition_type || T.is_variant_of_transitions

/-- What the requirements of concept `State` find in a class: for each of the
three expressions `s.on_enter(ctx)`, `s.on_exit(ctx)`, `s.on_update(ctx)` its
type, or nothing when the expression is ill-formed (no such member, or not
callable with a `Ctx&`). -/
structure ClassSig (ι : Type) where
  on_enter : Option (CppType ι)
  on_exit : Option (CppType ι)
  on_update : Option (CppType ι)

/-- Concept `State<S, Ctx>` on any class. -/
def ClassSig.State {ι : Type} (S : ClassSig ι) : Bool :=
  (match S.on_enter with
    | some T => T.is_void
    | none => false) &&
  (match S.on_exit with
    | some T => T.is_void
    | none => false) &&
  (match S.on_update with
    | some T => T.TransitionType
    | none => false)

/-- The clause `requires (State<States, Context> && ...)` of `FSM` on any list
of classes. -/
def FSM_requires {ι : Type} (States : List (ClassSig ι)) : Bool :=
  States.all ClassSig.State

/-- A return type of the Runner model as a type of the program. -/
def RetType.toCpp {ι : Type} : RetType ι → CppType ι
  | .transition next => .transition next
  | .variant alts => .variant (alts.map CppType.transition)
  | .other => .other

/-- What concept `State` finds in a class given as a `StateType` record: both
`on_enter` and `on_exit` are there and return `void`, `on_update` is there. -/
def StateType.sig {Context : Type} {ι : Type} {Args : ι → Type} {A I : Type}
    (S : StateType Context Args A I) : ClassSig ι :=
  { on_enter := some .void, on_exit := some .void, on_update := some S.update_ret.toCpp }

/-! ## Fallible access to the variant -/

section Variant

variable {Context : Type} {ι : Type} [DecidableEq ι] {Args Inst : ι → Type} {States : List ι}

/-- The call `v.emplace<T>(a...)`, given the `T` built from the arguments: the
old payload is destroyed and the new one stored. -/
def StateVariant.emplace (_v : StateVariant Inst States) (T : ι)
    (h : contains_v T States = true) (s : Inst T) : StateVariant Inst States :=
  .alt T h s

/-- The call `std::get<T>(v)`: the payload when `v` holds a `T`; when it does
not, the call throws `std::bad_variant_access`, here `none`. -/
def StateVariant.get? (v : StateVariant Inst States) (T : ι) : Option (Inst T) :=
  match v with
  | .monostate => none
  | .alt U _ s => if h : U = T then some (h ▸ s) else none

/-- The member `Runner::switch_to<Target>(ctx, a...)` read statement by
statement, with the access `std::get<Target>(current_)` kept fallible. -/
def Runner.switch_to_checked (M : FSM Context Args Inst States) (r : Runner Inst States)
    (Target : ι) (h : contains_v Target States = true) (ctx : Context) (a : Args Target) :
    Option (Step Context Args Inst States) :=
  let exited : Context × List (Call Args) :=
    match r.current_ with
    | .monostate => (ctx, [])
    | .alt Cur _ s => (((M.types Cur).on_exit s ctx).2, [Call.on_exit Cur])
  let current1 := r.current_.emplace Target h ((M.types Target).ctor a)
  match current1.get? Target with
  | none => none
  | some s =>
    let entered := (M.types Target).on_enter s exited.1
    some { runner := ⟨.alt Target h entered.1⟩
           ctx := entered.2
           calls := exited.2 ++ [Call.construct Target a, Call.on_enter Target] }

/-- The constructor of `Runner<>`, with the default template argument
`InitialState = FirstState`; its `requires contains_v<InitialState, States...>`
holds for the first element of a non-empty list. -/
def Runner.ctor_default (M : FSM Context Args Inst States) (hne : States ≠ [])
    (hd : (M.types (M.FirstState hne)).empty_pack.isSome = true) (ctx : Context) :
    Step Context Args Inst States :=
  Runner.ctor M (M.FirstState hne)
    (List.any_eq_true.mpr ⟨States.head hne, List.head_mem hne, decide_eq_true rfl⟩) hd ctx

end Variant

/-! ## Theorems -/

theorem held_target_mem {ι : Type} {Args : ι → Type} (Tr : RetType ι) (v : Tr.Val Args)
    (T : ι) (t : Transition Args T) (hheld : RetType.Val.held Tr v = some ⟨T, t⟩) :
    T ∈ Tr.targets := by
  cases Tr with
  | transition next =>
    simp only [RetType.Val.held, Option.some.injEq] at hheld
    cases hheld
    simp [RetType.targets]
  | variant alts =>
    obtain ⟨i, tr⟩ := v
    simp only [RetType.Val.held, Option.some.injEq] at hheld
    cases hheld
    exact List.get_mem alts i.1 i.2
  | other =>
    simp [RetType.Val.held] at hheld

section Lemmas

variable {Context : Type} {ι : Type} [DecidableEq ι] {Args Inst : ι → Type} {States : List ι}

theorem contains_v_iff (T : ι) (Ts : List ι) : contains_v T Ts = true ↔ T ∈ Ts := by
  unfold contains_v
  constructor
  · intro h
    obtain ⟨U, hU, hTU⟩ := List.any_eq_true.mp h
    rw [of_decide_eq_true hTU]
    exact hU
  · intro h
    exact List.any_eq_true.mpr ⟨T, h, decide_eq_true rfl⟩

theorem dispatch_of_held (M : FSM Context Args Inst States) (r : Runner Inst States) (Cur : ι)
    (Tr : RetType ι) (h : ∀ Next ∈ Tr.targets, contains_v Next States = true)
    (v : Tr.Val Args) (ctx : Context) (T : ι) (t : Transition Args T)
    (hheld : RetType.Val.held Tr v = some ⟨T, t⟩) (hT : contains_v T States = true) :
    Runner.dispatch M r Cur Tr h v ctx = r.apply_transition M Cur t hT ctx := by
  cases Tr with
  | transition next =>
    simp only [RetType.Val.held, Option.some.injEq] at hheld
    cases hheld
    rfl
  | variant alts =>
    obtain ⟨i, tr⟩ := v
    simp only [RetType.Val.held, Option.some.injEq] at hheld
    cases hheld
    rfl
  | other =>
    simp [RetType.Val.held] at hheld

theorem targets_declared_held (M : FSM Context Args Inst States)
    (hsa : M.targets_declared = true) (S : ι) (hS : contains_v S States = true)
    (v : (M.types S).update_ret.Val Args) (T : ι) (t : Transition Args T)
    (hheld : RetType.Val.held _ v = some ⟨T, t⟩) : contains_v T States = true :=
  List.all_eq_true.mp (List.all_eq_true.mp hsa S ((contains_v_iff S States).mp hS)) T
    (held_target_mem _ v T t hheld)

theorem update_of_held (M : FSM Context Args Inst States) (hsa : M.targets_declared = true)
    (S : ι) (hS : contains_v S States = true) (inst : Inst S) (ctx : Context)
    (T : ι) (t : Transition Args T)
    (hheld : RetType.Val.held _ ((M.types S).on_update inst ctx).1 = some ⟨T, t⟩)
    (hT : contains_v T States = true) :
    Runner.update M hsa ⟨.alt S hS inst⟩ ctx =
      { Runner.apply_transition M ⟨.alt S hS ((M.types S).on_update inst ctx).2.1⟩ S t hT
          ((M.types S).on_update inst ctx).2.2 with
        calls := Call.on_update S ::
          (Runner.apply_transition M ⟨.alt S hS ((M.types S).on_update inst ctx).2.1⟩ S t hT
            ((M.types S).on_update inst ctx).2.2).calls } := by
  simp only [Runner.update]
  rw [dispatch_of_held M _ S _ _ _ _ T t hheld hT]

theorem apply_transition_ne (M : FSM Context Args Inst States) (r : Runner Inst States)
    (Cur : ι) {Next : ι} (tr : Transition Args Next) (h : contains_v Next States = true)
    (ctx : Context) (hne : Next ≠ Cur) :
    r.apply_transition M Cur tr h ctx = r.switch_to M Next h ctx tr.args := by
  simp [Runner.apply_transition, hne]

theorem apply_transition_self (M : FSM Context Args Inst States) (r : Runner Inst States)
    (Cur : ι) (tr : Transition Args Cur) (h : contains_v Cur States = true) (ctx : Context) :
    r.apply_transition M Cur tr h ctx = { runner := r, ctx := ctx, calls := [] } := by
  simp [Runner.apply_transition]

theorem follow_append (p : Phase ι) (xs ys : List (Call Args)) :
    Phase.follow p (xs ++ ys) = (Phase.follow p xs).bind (fun q => Phase.follow q ys) := by
  induction xs generalizing p with
  | nil => simp [Phase.follow]
  | cons c cs ih =>
    simp only [List.cons_append, Phase.follow]
    cases hstep : Phase.step p c with
    | none => simp
    | some q => simp [ih]

theorem switch_to_bracket (M : FSM Context Args Inst States) (Cur : ι)
    (hCur : contains_v Cur States = true) (s : Inst Cur) (Target : ι)
    (h : contains_v Target States = true) (ctx : Context) (a : Args Target) :
    ∃ s1 : Inst Target,
      (Runner.switch_to M ⟨.alt Cur hCur s⟩ Target h ctx a).runner.current_
        = StateVariant.alt Target h s1 ∧
      Phase.follow (Phase.entered Cur)
        (Runner.switch_to M ⟨.alt Cur hCur s⟩ Target h ctx a).calls
        = some (Phase.entered Target) :=
  ⟨_, rfl, by simp [Runner.switch_to, Phase.follow, Phase.step]⟩

theorem dispatch_bracket (M : FSM Context Args Inst States) (Cur : ι)
    (hCur : contains_v Cur States = true) (s : Inst Cur) (Tr : RetType ι)
    (h : ∀ Next ∈ Tr.targets, contains_v Next States = true) (v : Tr.Val Args)
    (ctx : Context) :
    ∃ (T : ι) (hT : contains_v T States = true) (s1 : Inst T),
      (Runner.dispatch M ⟨.alt Cur hCur s⟩ Cur Tr h v ctx).runner.current_
        = StateVariant.alt T hT s1 ∧
      Phase.follow (Phase.entered Cur)
        (Runner.dispatch M ⟨.alt Cur hCur s⟩ Cur Tr h v ctx).calls
        = some (Phase.entered T) := by
  have key : ∀ (Next : ι) (tr : Transition Args Next) (hN : contains_v Next States = true),
      ∃ (T : ι) (hT : contains_v T States = true) (s1 : Inst T),
        (Runner.apply_transition M ⟨.alt Cur hCur s⟩ Cur tr hN ctx).runner.current_
          = StateVariant.alt T hT s1 ∧
        Phase.follow (Phase.entered Cur)
          (Runner.apply_transition M ⟨.alt Cur hCur s⟩ Cur tr hN ctx).calls
          = some (Phase.entered T) := by
    intro Next tr hN
    by_cases hEq : Next = Cur
    · subst hEq
      rw [apply_transition_self]
      exact ⟨Next, hCur, s, rfl, rfl⟩
    · rw [apply_transition_ne M _ Cur tr hN ctx hEq]
      obtain ⟨s1, h1, h2⟩ := switch_to_bracket M Cur hCur s Next hN ctx tr.args
      exact ⟨Next, hN, s1, h1, h2⟩
  cases Tr with
  | transition next => exact key next v _
  | variant alts =>
    obtain ⟨i, tr⟩ := v
    exact key _ tr _
  | other => exact ⟨Cur, hCur, s, rfl, rfl⟩

theorem update_bracket (M : FSM Context Args Inst States) (hsa : M.targets_declared = true)
    (Cur : ι) (hCur : contains_v Cur States = true) (s : Inst Cur) (ctx : Context) :
    ∃ (T : ι) (hT : contains_v T States = true) (s1 : Inst T),
      (Runner.update M hsa ⟨.alt Cur hCur s⟩ ctx).runner.current_ = StateVariant.alt T hT s1 ∧
      Phase.follow (Phase.entered Cur) (Runner.update M hsa ⟨.alt Cur hCur s⟩ ctx).calls
        = some (Phase.entered T) := by
  obtain ⟨T, hT, s1, h1, h2⟩ := dispatch_bracket M Cur hCur
    ((M.types Cur).on_update s ctx).2.1 (M.types Cur).update_ret
    (fun Next hN => List.all_eq_true.mp
      (List.all_eq_true.mp hsa Cur ((contains_v_iff Cur States).mp hCur)) Next hN)
    ((M.types Cur).on_update s ctx).1 ((M.types Cur).on_update s ctx).2.2
  refine ⟨T, hT, s1, h1, ?_⟩
  simp only [Runner.update, Phase.follow, Phase.step, if_true, Option.some_bind]
  exact h2

/-- The invariant of a constructed Runner: a declared state is stored, and the
calls made so far obey the bracket discipline and end inside its bracket. -/
theorem exec_bracket (M : FSM Context Args Inst States) (st : Step Context Args Inst States)
    (op : Op M)
    (hst : ∃ (T : ι) (hT : contains_v T States = true) (s : Inst T),
      st.runner.current_ = StateVariant.alt T hT s ∧
      Phase.follow (Phase.empty : Phase ι) st.calls = some (Phase.entered T)) :
    ∃ (T : ι) (hT : contains_v T States = true) (s : Inst T),
      (Runner.exec M st op).runner.current_ = StateVariant.alt T hT s ∧
      Phase.follow (Phase.empty : Phase ι) (Runner.exec M st op).calls
        = some (Phase.entered T) := by
  obtain ⟨Cur, hCur, s, hcur, hcalls⟩ := hst
  obtain ⟨⟨cur⟩, ctx, calls⟩ := st
  simp only at hcur hcalls
  subst hcur
  cases op with
  | update hsa =>
    obtain ⟨T, hT, s1, h1, h2⟩ := update_bracket M hsa Cur hCur s ctx
    refine ⟨T, hT, s1, h1, ?_⟩
    simp only [Runner.exec, follow_append, hcalls, Option.some_bind]
    exact h2
  | force_transition Target hreq hd =>
    obtain ⟨s1, h1, h2⟩ := switch_to_bracket M Cur hCur s Target
      (Bool.and_eq_true_iff.mp hreq).2 ctx ((M.types Target).empty_pack.get hd)
    refine ⟨Target, (Bool.and_eq_true_iff.mp hreq).2, s1, h1, ?_⟩
    simp only [Runner.exec, follow_append, hcalls, Option.some_bind]
    exact h2
  | caller f => exact ⟨Cur, hCur, s, rfl, hcalls⟩

theorem run_bracket (M : FSM Context Args Inst States) (ops : List (Op M))
    (st : Step Context Args Inst States)
    (hst : ∃ (T : ι) (hT : contains_v T States = true) (s : Inst T),
      st.runner.current_ = StateVariant.alt T hT s ∧
      Phase.follow (Phase.empty : Phase ι) st.calls = some (Phase.entered T)) :
    ∃ (T : ι) (hT : contains_v T States = true) (s : Inst T),
      (Runner.run M st ops).runner.current_ = StateVariant.alt T hT s ∧
      Phase.follow (Phase.empty : Phase ι) (Runner.run M st ops).calls
        = some (Phase.entered T) := by
  induction ops generalizing st with
  | nil => exact hst
  | cons op rest ih => exact ih (Runner.exec M st op) (exec_bracket M st op hst)

theorem ctor_bracket (M : FSM Context Args Inst States) (S : ι)
    (h : contains_v S States = true) (hd : (M.types S).empty_pack.isSome = true)
    (ctx : Context) :
    ∃ (T : ι) (hT : contains_v T States = true) (s : Inst T),
      (Runner.ctor M S h hd ctx).runner.current_ = StateVariant.alt T hT s ∧
      Phase.follow (Phase.empty : Phase ι) (Runner.ctor M S h hd ctx).calls
        = some (Phase.entered T) :=
  ⟨S, h, _, rfl, by simp [Runner.ctor, Runner.switch_to, Phase.follow, Phase.step]⟩

end Lemmas

section Claims

variable {Context : Type} {ι : Type} [DecidableEq ι] {Args Inst : ι → Type} {States : List ι}

/-- C1. Cross-state transition: when `on_update` of the active state S returns
(directly or inside a variant) a Transition to a declared state T different
from S, `update` calls exactly S.on_update, S.on_exit, the construction of T
from the carried arguments, and T.on_enter, in this order; the context is the
composition of the three context effects; afterwards the Runner is in T and not
in S. -/
theorem update_cross_state (M : FSM Context Args Inst States) (hsa : M.targets_declared = true)
    (S : ι) (hS : contains_v S States = true) (inst : Inst S) (ctx : Context)
    (T : ι) (t : Transition Args T)
    (hheld : RetType.Val.held _ ((M.types S).on_update inst ctx).1 = some ⟨T, t⟩)
    (hne : T ≠ S) :
    ∃ hT : contains_v T States = true,
      Runner.update M hsa ⟨.alt S hS inst⟩ ctx =
        { runner := ⟨.alt T hT ((M.types T).on_enter ((M.types T).ctor t.args)
            ((M.types S).on_exit ((M.types S).on_update inst ctx).2.1
              ((M.types S).on_update inst ctx).2.2).2).1⟩
          ctx := ((M.types T).on_enter ((M.types T).ctor t.args)
            ((M.types S).on_exit ((M.types S).on_update inst ctx).2.1
              ((M.types S).on_update inst ctx).2.2).2).2
          calls := [Call.on_update S, Call.on_exit S, Call.construct T t.args,
            Call.on_enter T] } ∧
      (Runner.update M hsa ⟨.alt S hS inst⟩ ctx).runner.is_in_state T = true ∧
      (Runner.update M hsa ⟨.alt S hS inst⟩ ctx).runner.is_in_state S = false := by
  have hT := targets_declared_held M hsa S hS _ T t hheld
  refine ⟨hT, ?_⟩
  have hupd := update_of_held M hsa S hS inst ctx T t hheld hT
  rw [apply_transition_ne M _ S t hT _ hne] at hupd
  rw [hupd]
  refine ⟨rfl, ?_, ?_⟩
  · simp [Runner.switch_to, Runner.is_in_state]
  · simp [Runner.switch_to, Runner.is_in_state, hne]

/-- C2. Same-state continuation: when `on_update` of the active state S returns
a Transition to S itself, `update` makes no other call than S.on_update, keeps
the instance as `on_update` left it, leaves the context as `on_update` left it,
and the arguments carried by the Transition play no part in the result. -/
theorem update_same_state (M : FSM Context Args Inst States) (hsa : M.targets_declared = true)
    (S : ι) (hS : contains_v S States = true) (inst : Inst S) (ctx : Context)
    (t : Transition Args S)
    (hheld : RetType.Val.held _ ((M.types S).on_update inst ctx).1 = some ⟨S, t⟩) :
    Runner.update M hsa ⟨.alt S hS inst⟩ ctx =
      { runner := ⟨.alt S hS ((M.types S).on_update inst ctx).2.1⟩
        ctx := ((M.types S).on_update inst ctx).2.2
        calls := [Call.on_update S] } := by
  rw [update_of_held M hsa S hS inst ctx S t hheld hS, apply_transition_self]

/-- C3. Construction: building `Runner<S>` on a context makes exactly two
calls, the default construction of S and S.on_enter on that instance, no
`on_exit` and no `on_update`; the context is the one `on_enter` leaves, and
afterwards the Runner is in S and in no other state. -/
theorem ctor_enters_initial (M : FSM Context Args Inst States) (S : ι)
    (h : contains_v S States = true) (hd : (M.types S).empty_pack.isSome = true)
    (ctx : Context) :
    Runner.ctor M S h hd ctx =
        { runner := ⟨.alt S h
            ((M.types S).on_enter ((M.types S).ctor ((M.types S).empty_pack.get hd)) ctx).1⟩
          ctx := ((M.types S).on_enter ((M.types S).ctor ((M.types S).empty_pack.get hd)) ctx).2
          calls := [Call.construct S ((M.types S).empty_pack.get hd), Call.on_enter S] } ∧
      (Runner.ctor M S h hd ctx).runner.is_in_state S = true ∧
      ∀ T : ι, T ≠ S → (Runner.ctor M S h hd ctx).runner.is_in_state T = false := by
  refine ⟨rfl, ?_, ?_⟩
  · simp [Runner.ctor, Runner.switch_to, Runner.is_in_state]
  · intro T hT
    simp [Runner.ctor, Runner.switch_to, Runner.is_in_state, Ne.symm hT]

/-- C4. Force-transition unconditionality: with S active, `force_transition`
to a marked declared Target, equal to S or not, calls exactly S.on_exit, the
construction of Target from the empty pack and Target.on_enter, never an
`on_update`; the context is the composition of the exit and enter effects and
the Runner is in Target afterwards. -/
theorem force_transition_unconditional (M : FSM Context Args Inst States)
    (S : ι) (hS : contains_v S States = true) (inst : Inst S) (Target : ι)
    (hreq : M.force_transition_requires Target = true)
    (hd : (M.types Target).empty_pack.isSome = true) (ctx : Context) :
    ∃ hT : contains_v Target States = true,
      Runner.force_transition M ⟨.alt S hS inst⟩ Target hreq hd ctx =
        { runner := ⟨.alt Target hT
            ((M.types Target).on_enter
              ((M.types Target).ctor ((M.types Target).empty_pack.get hd))
              ((M.types S).on_exit inst ctx).2).1⟩
          ctx := ((M.types Target).on_enter
              ((M.types Target).ctor ((M.types Target).empty_pack.get hd))
              ((M.types S).on_exit inst ctx).2).2
          calls := [Call.on_exit S, Call.construct Target ((M.types Target).empty_pack.get hd),
            Call.on_enter Target] } ∧
      (Runner.force_transition M ⟨.alt S hS inst⟩ Target hreq hd ctx).runner.is_in_state Target
        = true := by
  refine ⟨(Bool.and_eq_true_iff.mp hreq).2, rfl, ?_⟩
  simp [Runner.force_transition, Runner.switch_to, Runner.is_in_state]

/-- C7. The query `is_in_state<T>()` is true exactly when the stored
alternative is an instance of T; it is a function of the Runner alone and
returns nothing but the boolean. -/
theorem is_in_state_iff (r : Runner Inst States) (T : ι) :
    r.is_in_state T = true ↔ ∃ (h : contains_v T States = true) (s : Inst T),
      r.current_ = StateVariant.alt T h s := by
  obtain ⟨cur⟩ := r
  cases cur with
  | monostate => simp [Runner.is_in_state]
  | alt Cur hCur s =>
    simp only [Runner.is_in_state, decide_eq_true_eq]
    constructor
    · intro hEq
      subst hEq
      exact ⟨hCur, s, rfl⟩
    · rintro ⟨_, _, hEq⟩
      cases hEq
      rfl

/-- C5. Single active state: after the constructor and after any finite
sequence of `update` and `force_transition` calls (with any writes of the
caller to its context in between), `current_` does not hold `std::monostate`
and `is_in_state<T>()` is true for exactly one declared state T. -/
theorem single_active_state (M : FSM Context Args Inst States) (S : ι)
    (h : contains_v S States = true) (hd : (M.types S).empty_pack.isSome = true)
    (ctx : Context) (ops : List (Op M)) :
    (Runner.run M (Runner.ctor M S h hd ctx) ops).runner.current_ ≠ StateVariant.monostate ∧
    ∃! T : ι, T ∈ States ∧
      (Runner.run M (Runner.ctor M S h hd ctx) ops).runner.is_in_state T = true := by
  obtain ⟨T, hT, s, hcur, _⟩ := run_bracket M ops _ (ctor_bracket M S h hd ctx)
  constructor
  · rw [hcur]
    intro hEq
    cases hEq
  · refine ⟨T, ⟨(contains_v_iff T States).mp hT, ?_⟩, ?_⟩
    · simp [Runner.is_in_state, hcur]
    · rintro U ⟨_, hU⟩
      simp only [Runner.is_in_state, hcur, decide_eq_true_eq] at hU
      exact hU.symm

/-- C6, amended. Lifecycle bracket: over the whole life of a Runner, from its
constructor through any sequence of `update` and `force_transition` calls to
its destructor, the calls obey the bracket discipline (each instance is
constructed, then receives `on_enter` once, then `on_update` only, then
`on_exit` once before the next instance is constructed), and the life ends with
the last instance entered and not exited: that instance is the active state,
and destroying the Runner gives it no `on_exit`. -/
theorem lifecycle_bracket (M : FSM Context Args Inst States) (S : ι)
    (h : contains_v S States = true) (hd : (M.types S).empty_pack.isSome = true)
    (ctx : Context) (ops : List (Op M)) :
    ∃ T : ι,
      Phase.follow (Phase.empty : Phase ι) (Runner.life M S h hd ctx ops)
        = some (Phase.entered T) ∧
      (Runner.run M (Runner.ctor M S h hd ctx) ops).runner.is_in_state T = true := by
  obtain ⟨T, hT, s, hcur, hcalls⟩ := run_bracket M ops _ (ctor_bracket M S h hd ctx)
  refine ⟨T, ?_, ?_⟩
  · simp only [Runner.life, Runner.dtor, List.append_nil]
    exact hcalls
  · simp [Runner.is_in_state, hcur]

/-- C8. Closed-alternative unwrapping: take two machines over the same classes
that differ at most in `on_update`, a state S whose `on_update` in the first
returns a variant holding the Transition t and in the second returns t itself,
with the same effect on the instance and the context. Then `update` gives the
same Runner, the same context and the same calls in both. -/
theorem update_variant_unwrap (M₁ M₂ : FSM Context Args Inst States)
    (hsa₁ : M₁.targets_declared = true) (hsa₂ : M₂.targets_declared = true)
    (hexit : ∀ U : ι, (M₁.types U).on_exit = (M₂.types U).on_exit)
    (henter : ∀ U : ι, (M₁.types U).on_enter = (M₂.types U).on_enter)
    (hctor : ∀ U : ι, (M₁.types U).ctor = (M₂.types U).ctor)
    (S : ι) (hS : contains_v S States = true) (inst : Inst S) (ctx : Context)
    (_hvariant : is_variant_of_transitions (M₁.types S).update_ret = true)
    (_hsingle : is_transition_type (M₂.types S).update_ret = true)
    (T : ι) (t : Transition Args T)
    (h₁ : RetType.Val.held _ ((M₁.types S).on_update inst ctx).1 = some ⟨T, t⟩)
    (h₂ : RetType.Val.held _ ((M₂.types S).on_update inst ctx).1 = some ⟨T, t⟩)
    (hrest : ((M₁.types S).on_update inst ctx).2 = ((M₂.types S).on_update inst ctx).2) :
    Runner.update M₁ hsa₁ ⟨.alt S hS inst⟩ ctx = Runner.update M₂ hsa₂ ⟨.alt S hS inst⟩ ctx := by
  have hT := targets_declared_held M₁ hsa₁ S hS _ T t h₁
  rw [update_of_held M₁ hsa₁ S hS inst ctx T t h₁ hT,
    update_of_held M₂ hsa₂ S hS inst ctx T t h₂ hT, hrest]
  simp only [Runner.apply_transition, Runner.switch_to, hexit, henter, hctor]

/-- C9, at the failing input. The call `make_transition<T>(x)` with `x` an
existing object (an lvalue) is ill-formed: `Args` is deduced as a reference,
the argument is forwarded as an lvalue, and the constructor of
`Transition<T, std::decay_t<Args>>` takes an rvalue reference. The same call on
a temporary is well-formed. -/
theorem make_transition_lvalue_rejected :
    make_transition_viable [ValueCategory.lvalue] = false ∧
    make_transition_viable [ValueCategory.rvalue] = true := by
  decide

/-- C10, amended. Force-transition gating: `force_transition<Target>` is
admitted exactly when Target declares `force_transition_allowed` as true and is
in the declared list; the predicate holds for every `ForceTransitionable<Base>`;
for a class written out as a struct it holds exactly when the struct itself
declares the flag as true, so it fails for every class without the flag (in
the test: it holds for EmergencyState and fails for NormalState and
ProtectedState); and a state a forced jump makes active always satisfies the
predicate and is declared. -/
theorem force_transition_gating :
    (∀ (M : FSM Context Args Inst States) (Target : ι),
      M.force_transition_requires Target = true ↔
        (M.types Target).force_transition_allowed = some true ∧ Target ∈ States) ∧
    (∀ (A I : Type) (Base : ClassDecl Context Args A I),
      ForceTransitionableState (ClassDecl.ForceTransitionable Base).type = true) ∧
    (∀ (A I : Type) (members : StateType Context Args A I),
      ForceTransitionableState (ClassDecl.plain members).type = true ↔
        members.force_transition_allowed = some true) ∧
    (ForceTransitionableState TestForceTransition.EmergencyState = true ∧
      ForceTransitionableState TestForceTransition.NormalState = false ∧
      ForceTransitionableState TestForceTransition.ProtectedState = false) ∧
    (∀ (M : FSM Context Args Inst States) (r : Runner Inst States) (Target : ι)
      (hreq : M.force_transition_requires Target = true)
      (hd : (M.types Target).empty_pack.isSome = true) (ctx : Context) (T : ι),
      (Runner.force_transition M r Target hreq hd ctx).runner.is_in_state T = true →
        ForceTransitionableState (M.types T) = true ∧ T ∈ States) := by
  refine ⟨?_, ?_, ?_, ⟨rfl, rfl, rfl⟩, ?_⟩
  · intro M Target
    simp only [FSM.force_transition_requires, Bool.and_eq_true, contains_v_iff,
      ForceTransitionableState]
    cases (M.types Target).force_transition_allowed with
    | none => simp
    | some b => simp
  · intro A I Base
    rfl
  · intro A I members
    simp only [ClassDecl.type, ForceTransitionableState]
    cases members.force_transition_allowed with
    | none => simp
    | some b => simp
  · intro M r Target hreq hd ctx T hin
    have hEq : Target = T := by
      simpa [Runner.force_transition, Runner.switch_to, Runner.is_in_state] using hin
    subst hEq
    exact ⟨(Bool.and_eq_true_iff.mp hreq).1,
      (contains_v_iff Target States).mp (Bool.and_eq_true_iff.mp hreq).2⟩

end Claims

section Witnesses

theorem basic_static_asserts : TestBasicFsm.TestFSM.targets_declared = true := by
  decide

theorem basic_contains_StateA :
    contains_v TestBasicFsm.StateId.StateA [.StateA, .StateB] = true := by
  decide

theorem basic_contains_StateB :
    contains_v TestBasicFsm.StateId.StateB [.StateA, .StateB] = true := by
  decide

section WitnessTestBasicFsm

open TestBasicFsm

/-- C1 at the input of `UTEST(BasicFSM, StateTransition)`: StateA active,
value 1, the flags cleared, `should_transition` set. -/
theorem update_cross_state_witness :
    (Runner.update TestFSM basic_static_asserts ⟨.alt StateId.StateA basic_contains_StateA ()⟩
        { value := 1, should_transition := true }).ctx =
      { value := 10, enter_called := true, exit_called := true, update_called := true,
        should_transition := true } ∧
    (Runner.update TestFSM basic_static_asserts ⟨.alt StateId.StateA basic_contains_StateA ()⟩
        { value := 1, should_transition := true }).runner.is_in_state StateId.StateB = true ∧
    (Runner.update TestFSM basic_static_asserts ⟨.alt StateId.StateA basic_contains_StateA ()⟩
        { value := 1, should_transition := true }).runner.is_in_state StateId.StateA = false := by
  obtain ⟨_, hEq, hB, hA⟩ := update_cross_state TestFSM basic_static_asserts StateId.StateA
    basic_contains_StateA () { value := 1, should_transition := true } StateId.StateB ⟨()⟩ rfl
    (by decide)
  refine ⟨?_, hB, hA⟩
  rw [hEq]
  rfl

/-- C2 at the input of `UTEST(BasicFSM, StateUpdate)`: StateA active, value 1,
`should_transition` clear. -/
theorem update_same_state_witness :
    Runner.update TestFSM basic_static_asserts ⟨.alt StateId.StateA basic_contains_StateA ()⟩
        { value := 1, enter_called := true } =
      { runner := ⟨.alt StateId.StateA basic_contains_StateA ()⟩
        ctx := { value := 2, enter_called := true, update_called := true }
        calls := [Call.on_update StateId.StateA] } :=
  update_same_state TestFSM basic_static_asserts StateId.StateA basic_contains_StateA ()
    { value := 1, enter_called := true } ⟨()⟩ rfl

/-- C3 at the input of `UTEST(BasicFSM, InitialState)`: `Runner<StateA>` built on
a fresh context. -/
theorem ctor_enters_initial_witness :
    (Runner.ctor TestFSM StateId.StateA basic_contains_StateA rfl {}).ctx
      = { value := 1, enter_called := true } ∧
    (Runner.ctor TestFSM StateId.StateA basic_contains_StateA rfl {}).calls
      = [Call.construct StateId.StateA (), Call.on_enter StateId.StateA] ∧
    (Runner.ctor TestFSM StateId.StateA basic_contains_StateA rfl {}).runner.is_in_state
      StateId.StateA = true ∧
    (Runner.ctor TestFSM StateId.StateA basic_contains_StateA rfl {}).runner.is_in_state
      StateId.StateB = false := by
  obtain ⟨hEq, hA, hOther⟩ :=
    ctor_enters_initial TestFSM StateId.StateA basic_contains_StateA rfl {}
  exact ⟨congrArg Step.ctx hEq, congrArg Step.calls hEq, hA, hOther StateId.StateB (by decide)⟩

end WitnessTestBasicFsm

theorem force_requires_EmergencyState :
    TestForceTransition.TestFSM.force_transition_requires
      TestForceTransition.StateId.EmergencyState = true := by
  decide

theorem force_contains_EmergencyState :
    contains_v TestForceTransition.StateId.EmergencyState
      [.NormalState, .ProtectedState, .EmergencyState] = true := by
  decide

section WitnessTestForceTransition

open TestForceTransition

/-- C4 with Target equal to the active state: EmergencyState active, forced
into EmergencyState again. -/
theorem force_transition_unconditional_witness :
    Runner.force_transition TestFSM ⟨.alt StateId.EmergencyState force_contains_EmergencyState ()⟩
        StateId.EmergencyState force_requires_EmergencyState rfl
        { value := 5, last_state := "Emergency" } =
      { runner := ⟨.alt StateId.EmergencyState force_contains_EmergencyState ()⟩
        ctx := { value := 999, last_state := "Emergency" }
        calls := [Call.on_exit StateId.EmergencyState,
          Call.construct StateId.EmergencyState (), Call.on_enter StateId.EmergencyState] } := by
  obtain ⟨_, hEq, _⟩ := force_transition_unconditional TestFSM StateId.EmergencyState
    force_contains_EmergencyState () StateId.EmergencyState force_requires_EmergencyState rfl
    { value := 5, last_state := "Emergency" }
  rw [hEq]
  rfl

end WitnessTestForceTransition

section WitnessTestBasicFsm

open TestBasicFsm

/-- C5 on the run of `UTEST(BasicFSM, MultipleTransitions)` up to its second
update. -/
theorem single_active_state_witness :
    (Runner.run TestFSM (Runner.ctor TestFSM StateId.StateA basic_contains_StateA rfl {})
        [Op.caller (fun c => { c with should_transition := true }),
          Op.update basic_static_asserts,
          Op.caller (fun c => { c with should_transition := false }),
          Op.update basic_static_asserts]).runner.current_ ≠ StateVariant.monostate ∧
    ∃! T : StateId, T ∈ [StateId.StateA, StateId.StateB] ∧
      (Runner.run TestFSM (Runner.ctor TestFSM StateId.StateA basic_contains_StateA rfl {})
        [Op.caller (fun c => { c with should_transition := true }),
          Op.update basic_static_asserts,
          Op.caller (fun c => { c with should_transition := false }),
          Op.update basic_static_asserts]).runner.is_in_state T = true :=
  single_active_state TestFSM StateId.StateA basic_contains_StateA rfl {} _

/-- C6 as stated fails at the shortest life: `Runner<StateA>` is built and
destroyed, as at the end of `UTEST(BasicFSM, InitialState)`. The calls are the
construction and `on_enter` of StateA; its `on_exit` never comes. -/
theorem teardown_without_on_exit :
    Runner.life TestFSM StateId.StateA basic_contains_StateA rfl {} []
      = [Call.construct StateId.StateA (), Call.on_enter StateId.StateA] ∧
    Phase.all_closed (Runner.life TestFSM StateId.StateA basic_contains_StateA rfl {} []) = false :=
  ⟨rfl, rfl⟩

/-- C6 amended, on the run construct, set flag, update: the calls are the two
brackets in sequence and the life ends inside the bracket of StateB. -/
theorem lifecycle_bracket_witness :
    ∃ T : StateId,
      Phase.follow (Phase.empty : Phase StateId)
        (Runner.life TestFSM StateId.StateA basic_contains_StateA rfl {}
          [Op.caller (fun c => { c with should_transition := true }),
            Op.update basic_static_asserts]) = some (Phase.entered T) ∧
      (Runner.run TestFSM (Runner.ctor TestFSM StateId.StateA basic_contains_StateA rfl {})
          [Op.caller (fun c => { c with should_transition := true }),
            Op.update basic_static_asserts]).runner.is_in_state T = true :=
  lifecycle_bracket TestFSM StateId.StateA basic_contains_StateA rfl {} _

end WitnessTestBasicFsm

theorem simple_static_asserts :
    SimpleWorking.SimpleFSM.targets_declared = true := by
  decide

theorem simple_variant_static_asserts :
    SimpleWorking.SimpleFSM_variant.targets_declared = true := by
  decide

theorem simple_contains_StateA :
    contains_v SimpleWorking.StateId.StateA [.StateA, .StateB, .StateC] = true := by
  decide

section WitnessSimpleWorking

open SimpleWorking

/-- C8 on `StateA` of `samples/simple_working.cpp`: with the transition to
StateB returned inside a variant, the first update of the sample does what it
does with the single Transition. -/
theorem update_variant_unwrap_witness :
    Runner.update SimpleFSM_variant simple_variant_static_asserts
        ⟨.alt StateId.StateA simple_contains_StateA ()⟩ { counter := 0 } =
      Runner.update SimpleFSM simple_static_asserts
        ⟨.alt StateId.StateA simple_contains_StateA ()⟩ { counter := 0 } :=
  update_variant_unwrap SimpleFSM_variant SimpleFSM simple_variant_static_asserts
    simple_static_asserts
    (fun U => by cases U <;> rfl) (fun U => by cases U <;> rfl) (fun U => by cases U <;> rfl)
    StateId.StateA simple_contains_StateA () { counter := 0 } rfl rfl
    StateId.StateB ⟨()⟩ rfl rfl rfl

end WitnessSimpleWorking

section WitnessTestForceTransition

open TestForceTransition

/-- C10 as stated fails for a class that is not wrapped and declares the flag
itself: `NormalState` with `static constexpr bool force_transition_allowed = true`
added to the struct satisfies the predicate. -/
theorem unwrapped_class_satisfies_predicate :
    (ClassDecl.plain { NormalState with force_transition_allowed := some true }).wrapped
      = false ∧
    ForceTransitionableState
      (ClassDecl.plain { NormalState with force_transition_allowed := some true }).type
      = true :=
  ⟨rfl, rfl⟩

end WitnessTestForceTransition

end Witnesses

/-! ## Validation, totality and single stepping -/

theorem toCpp_TransitionType {ι : Type} (R : RetType ι) :
    R.toCpp.TransitionType = TransitionType R := by
  cases R with
  | transition next => rfl
  | variant alts =>
    simp [RetType.toCpp, CppType.TransitionType, CppType.is_transition_type,
      CppType.is_variant_of_transitions, TransitionType, is_transition_type,
      is_variant_of_transitions]
  | other => rfl

theorem sig_State {Context : Type} {ι : Type} {Args : ι → Type} {A I : Type}
    (S : StateType Context Args A I) : S.sig.State = State S := by
  simp [StateType.sig, ClassSig.State, CppType.is_void, State, toCpp_TransitionType]

section Lemmas2

variable {Context : Type} {ι : Type} [DecidableEq ι] {Args Inst : ι → Type} {States : List ι}

theorem is_in_state_mem (r : Runner Inst States) (T : ι) (h : r.is_in_state T = true) :
    T ∈ States := by
  obtain ⟨cur⟩ := r
  cases cur with
  | monostate => simp [Runner.is_in_state] at h
  | alt Cur hCur s =>
    simp only [Runner.is_in_state, decide_eq_true_eq] at h
    subst h
    exact (contains_v_iff Cur States).mp hCur

theorem targets_declared_iff (M : FSM Context Args Inst States) :
    M.targets_declared = true ↔
      ∀ S ∈ States, ∀ T ∈ (M.types S).update_ret.targets, T ∈ States := by
  simp only [FSM.targets_declared, List.all_eq_true, contains_v_iff]

theorem get?_emplace (v : StateVariant Inst States) (T : ι) (h : contains_v T States = true)
    (s : Inst T) : (v.emplace T h s).get? T = some s := by
  simp [StateVariant.emplace, StateVariant.get?]

theorem switch_to_checked_eq (M : FSM Context Args Inst States) (r : Runner Inst States)
    (Target : ι) (h : contains_v Target States = true) (ctx : Context) (a : Args Target) :
    r.switch_to_checked M Target h ctx a = some (r.switch_to M Target h ctx a) := by
  simp only [Runner.switch_to_checked, get?_emplace]
  rfl

end Lemmas2

/-- C12. Capability contract: the `requires` clause of `FSM` holds for a list
of classes exactly when, for every class of the list, `on_enter` and `on_exit`
are callable with the context and return `void`, and `on_update` is callable
and returns a Transition or a variant all of whose alternatives are
Transitions. Every machine of the Runner model satisfies it. -/
theorem capability_contract {Context : Type} {ι : Type} {Args Inst : ι → Type}
    {States : List ι} {κ : Type} (Classes : List (ClassSig κ)) :
    (FSM_requires Classes = true ↔
      ∀ S ∈ Classes, S.on_enter = some CppType.void ∧ S.on_exit = some CppType.void ∧
        ((∃ next : κ, S.on_update = some (CppType.transition next)) ∨
          (∃ alts : List (CppType κ), S.on_update = some (CppType.variant alts) ∧
            ∀ A ∈ alts, ∃ next : κ, A = CppType.transition next))) ∧
    (∀ M : FSM Context Args Inst States,
      FSM_requires (States.map (fun T => (M.types T).sig)) = true) := by
  constructor
  · simp only [FSM_requires, List.all_eq_true]
    constructor
    · intro h S hS
      have hS1 := h S hS
      simp only [ClassSig.State, Bool.and_eq_true] at hS1
      obtain ⟨⟨h1, h2⟩, h3⟩ := hS1
      refine ⟨?_, ?_, ?_⟩
      · cases hen : S.on_enter with
        | none => simp [hen] at h1
        | some T =>
          rw [hen] at h1
          cases T <;> simp [CppType.is_void] at h1 ⊢
      · cases hex : S.on_exit with
        | none => simp [hex] at h2
        | some T =>
          rw [hex] at h2
          cases T <;> simp [CppType.is_void] at h2 ⊢
      · cases hup : S.on_update with
        | none => simp [hup] at h3
        | some T =>
          rw [hup] at h3
          cases T with
          | void =>
            simp [CppType.TransitionType, CppType.is_transition_type,
              CppType.is_variant_of_transitions] at h3
          | transition next => exact Or.inl ⟨next, rfl⟩
          | variant alts =>
            refine Or.inr ⟨alts, rfl, ?_⟩
            intro A hA
            simp only [CppType.TransitionType, CppType.is_transition_type,
              CppType.is_variant_of_transitions, Bool.false_or, List.all_eq_true] at h3
            have hA1 := h3 A hA
            cases A with
            | transition next => exact ⟨next, rfl⟩
            | void => simp at hA1
            | variant _ => simp at hA1
            | other => simp at hA1
          | other =>
            simp [CppType.TransitionType, CppType.is_transition_type,
              CppType.is_variant_of_transitions] at h3
    · intro h S hS
      obtain ⟨h1, h2, h3⟩ := h S hS
      simp only [ClassSig.State, h1, h2, CppType.is_void, Bool.true_and]
      rcases h3 with ⟨next, hn⟩ | ⟨alts, ha, hall⟩
      · simp [hn, CppType.TransitionType, CppType.is_transition_type]
      · simp only [ha, CppType.TransitionType, CppType.is_transition_type,
          CppType.is_variant_of_transitions, Bool.false_or, List.all_eq_true]
        intro A hA
        obtain ⟨next, hn⟩ := hall A hA
        rw [hn]
  · intro M
    have h := M.requires_State
    simp only [FSM_requires, List.all_eq_true, List.mem_map, forall_exists_index, and_imp,
      forall_apply_eq_imp_iff₂] at h ⊢
    intro T hT
    rw [sig_State]
    exact h T hT

section Claims2

variable {Context : Type} {ι : Type} [DecidableEq ι] {Args Inst : ι → Type} {States : List ι}

/-- C11, amended. Transition-target validation: the check that `update` carries
(the `static_assert` of `apply_transition`) holds exactly when every Transition
class named by the `on_update` type of a declared state targets a declared
state; it is a condition on the types, not on the values returned. Under it
every Transition an update consumes targets a declared state, and no update
leaves the Runner in a state outside the declared list. -/
theorem transition_target_validation (M : FSM Context Args Inst States) :
    (M.targets_declared = true ↔
      ∀ S ∈ States, ∀ T ∈ (M.types S).update_ret.targets, T ∈ States) ∧
    (∀ (_ : M.targets_declared = true) (S : ι) (_ : contains_v S States = true)
      (inst : Inst S) (ctx : Context) (T : ι) (t : Transition Args T),
      RetType.Val.held _ ((M.types S).on_update inst ctx).1 = some ⟨T, t⟩ → T ∈ States) ∧
    (∀ (hsa : M.targets_declared = true) (r : Runner Inst States) (ctx : Context) (T : ι),
      (Runner.update M hsa r ctx).runner.is_in_state T = true → T ∈ States) := by
  refine ⟨targets_declared_iff M, ?_, ?_⟩
  · intro hsa S hS inst ctx T t hheld
    exact (contains_v_iff T States).mp (targets_declared_held M hsa S hS _ T t hheld)
  · intro hsa r ctx T hin
    exact is_in_state_mem _ T hin

/-- C15. No runtime error path: in `switch_to` the access to the Target
alternative right after it was emplaced always succeeds, so the member read
with a fallible access never fails and equals `switch_to`; on a Runner with an
active state, `update` and `force_transition` for any admitted Target end with
an active state again. -/
theorem no_runtime_error_path (M : FSM Context Args Inst States) :
    (∀ (r : Runner Inst States) (Target : ι) (h : contains_v Target States = true)
      (ctx : Context) (a : Args Target),
      r.switch_to_checked M Target h ctx a = some (r.switch_to M Target h ctx a)) ∧
    (∀ (hsa : M.targets_declared = true) (S : ι) (hS : contains_v S States = true)
      (inst : Inst S) (ctx : Context),
      ∃ (T : ι) (hT : contains_v T States = true) (s : Inst T),
        (Runner.update M hsa ⟨.alt S hS inst⟩ ctx).runner.current_ = StateVariant.alt T hT s) ∧
    (∀ (S : ι) (hS : contains_v S States = true) (inst : Inst S) (Target : ι)
      (hreq : M.force_transition_requires Target = true)
      (hd : (M.types Target).empty_pack.isSome = true) (ctx : Context),
      ∃ (hT : contains_v Target States = true) (s : Inst Target),
        (Runner.force_transition M ⟨.alt S hS inst⟩ Target hreq hd ctx).runner.current_
          = StateVariant.alt Target hT s) := by
  refine ⟨switch_to_checked_eq M, ?_, ?_⟩
  · intro hsa S hS inst ctx
    obtain ⟨T, hT, s, hcur, _⟩ := update_bracket M hsa S hS inst ctx
    exact ⟨T, hT, s, hcur⟩
  · intro S hS inst Target hreq hd ctx
    exact ⟨(Bool.and_eq_true_iff.mp hreq).2, _, rfl⟩

/-- C16. Default initial state: for a non-empty declared list, a Runner built
without naming an initial state starts in the first declared state: that state
alone is active, and the only calls are its default construction and its
`on_enter`. Whatever initial state a Runner is built with is a member of the
declared list. -/
theorem default_initial_state (M : FSM Context Args Inst States) (hne : States ≠ [])
    (hd : (M.types (M.FirstState hne)).empty_pack.isSome = true) (ctx : Context) :
    States.head? = some (M.FirstState hne) ∧
    (Runner.ctor_default M hne hd ctx).runner.is_in_state (M.FirstState hne) = true ∧
    (∀ T : ι, T ≠ M.FirstState hne →
      (Runner.ctor_default M hne hd ctx).runner.is_in_state T = false) ∧
    (Runner.ctor_default M hne hd ctx).calls =
      [Call.construct (M.FirstState hne) ((M.types (M.FirstState hne)).empty_pack.get hd),
        Call.on_enter (M.FirstState hne)] ∧
    (Runner.ctor_default M hne hd ctx).ctx =
      ((M.types (M.FirstState hne)).on_enter
        ((M.types (M.FirstState hne)).ctor ((M.types (M.FirstState hne)).empty_pack.get hd))
        ctx).2 ∧
    (∀ (S : ι) (h : contains_v S States = true)
      (hd1 : (M.types S).empty_pack.isSome = true) (ctx1 : Context),
      S ∈ States ∧ (Runner.ctor M S h hd1 ctx1).runner.is_in_state S = true) := by
  refine ⟨?_, ?_, ?_, rfl, rfl, ?_⟩
  · simp [FSM.FirstState, List.head?_eq_head hne]
  · simp [Runner.ctor_default, Runner.ctor, Runner.switch_to, Runner.is_in_state]
  · intro T hT
    simp [Runner.ctor_default, Runner.ctor, Runner.switch_to, Runner.is_in_state, Ne.symm hT]
  · intro S h hd1 ctx1
    refine ⟨(contains_v_iff S States).mp h, ?_⟩
    simp [Runner.ctor, Runner.switch_to, Runner.is_in_state]

/-- C20. One step per tick: an `update` on a Runner with active state S calls
`on_update` once, on the instance that was active, and then either makes no
other call and keeps that instance, or consumes the returned Transition to a
state T different from S by one `on_exit`, one construction and one `on_enter`.
The `on_update` of the entered state is not called, and the Runner ends in S
or in T. -/
theorem one_step_per_tick (M : FSM Context Args Inst States) (hsa : M.targets_declared = true)
    (S : ι) (hS : contains_v S States = true) (inst : Inst S) (ctx : Context) :
    Runner.update M hsa ⟨.alt S hS inst⟩ ctx =
        { runner := ⟨.alt S hS ((M.types S).on_update inst ctx).2.1⟩
          ctx := ((M.types S).on_update inst ctx).2.2
          calls := [Call.on_update S] } ∨
    ∃ (T : ι) (t : Transition Args T) (hT : contains_v T States = true), T ≠ S ∧
      RetType.Val.held _ ((M.types S).on_update inst ctx).1 = some ⟨T, t⟩ ∧
      Runner.update M hsa ⟨.alt S hS inst⟩ ctx =
        { runner := ⟨.alt T hT ((M.types T).on_enter ((M.types T).ctor t.args)
            ((M.types S).on_exit ((M.types S).on_update inst ctx).2.1
              ((M.types S).on_update inst ctx).2.2).2).1⟩
          ctx := ((M.types T).on_enter ((M.types T).ctor t.args)
            ((M.types S).on_exit ((M.types S).on_update inst ctx).2.1
              ((M.types S).on_update inst ctx).2.2).2).2
          calls := [Call.on_update S, Call.on_exit S, Call.construct T t.args,
            Call.on_enter T] } := by
  cases hheld : RetType.Val.held _ ((M.types S).on_update inst ctx).1 with
  | none =>
    left
    have hother : ∀ (Tr : RetType ι) (h : ∀ Next ∈ Tr.targets, contains_v Next States = true)
        (v : Tr.Val Args) (r : Runner Inst States) (c : Context),
        RetType.Val.held Tr v = none →
          Runner.dispatch M r S Tr h v c = { runner := r, ctx := c, calls := [] } := by
      intro Tr h v r c hv
      cases Tr with
      | transition next => simp [RetType.Val.held] at hv
      | variant alts =>
        obtain ⟨i, tr⟩ := v
        simp [RetType.Val.held] at hv
      | other => rfl
    simp only [Runner.update]
    rw [hother _ _ _ _ _ hheld]
  | some p =>
    obtain ⟨T, t⟩ := p
    have hT := targets_declared_held M hsa S hS _ T t hheld
    have hupd := update_of_held M hsa S hS inst ctx T t hheld hT
    by_cases hEq : T = S
    · left
      subst hEq
      rw [hupd, apply_transition_self]
    · right
      refine ⟨T, t, hT, hEq, rfl, ?_⟩
      rw [hupd, apply_transition_ne M _ S t hT _ hEq]
      rfl

end Claims2

theorem force_static_asserts : TestForceTransition.TestFSM.targets_declared = true := by
  decide

theorem force_contains_NormalState :
    contains_v TestForceTransition.StateId.NormalState
      [.NormalState, .ProtectedState, .EmergencyState] = true := by
  decide

theorem only_contains_StateA :
    contains_v TestBasicFsm.StateId.StateA [TestBasicFsm.StateId.StateA] = true := by
  decide

theorem basic_states_nonempty :
    [TestBasicFsm.StateId.StateA, TestBasicFsm.StateId.StateB] ≠ [] := by
  decide

theorem simple_contains_StateB :
    contains_v SimpleWorking.StateId.StateB [.StateA, .StateB, .StateC] = true := by
  decide

section ClaimsTestForceTransition

open TestForceTransition

/-- C13. Marker transparency: `ForceTransitionable<Base>` has the constructors,
the `on_enter`, the `on_exit` and the `on_update` (with its return type) of
Base, on the same instance data. In the test, forcing a Runner into
EmergencyState gives value 999 and last_state "Emergency"; in the next update
`on_update` sets value to 0 and names NormalState, and the update ends in
NormalState with value 100. -/
theorem marker_transparency :
    (∀ (Context : Type) (ι : Type) (Args : ι → Type) (A I : Type)
      (Base : StateType Context Args A I),
      (ForceTransitionable Base).ctor = Base.ctor ∧
      (ForceTransitionable Base).empty_pack = Base.empty_pack ∧
      (ForceTransitionable Base).on_enter = Base.on_enter ∧
      (ForceTransitionable Base).on_exit = Base.on_exit ∧
      (ForceTransitionable Base).update_ret = Base.update_ret ∧
      (ForceTransitionable Base).on_update = Base.on_update) ∧
    (Runner.run TestFSM (Runner.ctor TestFSM StateId.NormalState force_contains_NormalState rfl {})
        [Op.force_transition StateId.EmergencyState force_requires_EmergencyState rfl]).ctx
      = { value := 999, last_state := "Emergency" } ∧
    (Runner.run TestFSM (Runner.ctor TestFSM StateId.NormalState force_contains_NormalState rfl {})
        [Op.force_transition StateId.EmergencyState force_requires_EmergencyState
          rfl]).runner.is_in_state StateId.EmergencyState = true ∧
    ((TestFSM.types StateId.EmergencyState).on_update ()
        { value := 999, last_state := "Emergency" }).2.2.value = 0 ∧
    RetType.Val.held _ ((TestFSM.types StateId.EmergencyState).on_update ()
        { value := 999, last_state := "Emergency" }).1
      = some ⟨StateId.NormalState, make_transition StateId.NormalState ()⟩ ∧
    (Runner.run TestFSM (Runner.ctor TestFSM StateId.NormalState force_contains_NormalState rfl {})
        [Op.force_transition StateId.EmergencyState force_requires_EmergencyState rfl,
          Op.update force_static_asserts]).ctx
      = { value := 100, last_state := "Normal" } ∧
    (Runner.run TestFSM (Runner.ctor TestFSM StateId.NormalState force_contains_NormalState rfl {})
        [Op.force_transition StateId.EmergencyState force_requires_EmergencyState rfl,
          Op.update force_static_asserts]).runner.is_in_state StateId.NormalState = true := by
  refine ⟨?_, rfl, rfl, rfl, rfl, rfl, rfl⟩
  intro Context ι Args A I Base
  exact ⟨rfl, rfl, rfl, rfl, rfl, rfl⟩

end ClaimsTestForceTransition

section ClaimsTestBasicFsm

open TestBasicFsm

/-- C11 as stated fails for `mameFSM::FSM<TestContext, StateA>`: the machine
is formed (its `requires` clause holds) and `Runner<StateA>` is constructed and
active, although `StateA::on_update` names the undeclared StateB; only the
check carried by `update` fails. -/
theorem machine_formed_with_undeclared_target :
    FSM_requires ([StateId.StateA].map (fun T => (StateAOnlyFSM.types T).sig)) = true ∧
    (Runner.ctor StateAOnlyFSM StateId.StateA only_contains_StateA rfl {}).runner.is_in_state
      StateId.StateA = true ∧
    StateId.StateB ∈ (StateAOnlyFSM.types StateId.StateA).update_ret.targets ∧
    contains_v StateId.StateB [StateId.StateA] = false ∧
    StateAOnlyFSM.targets_declared = false := by
  decide

/-- C16 on the machine of the basic test: `Runner<>` starts in StateA, the
first of the two declared states, with value 1. -/
theorem default_initial_state_witness :
    (Runner.ctor_default TestFSM basic_states_nonempty rfl {}).runner.is_in_state
      StateId.StateA = true ∧
    (Runner.ctor_default TestFSM basic_states_nonempty rfl {}).runner.is_in_state
      StateId.StateB = false ∧
    (Runner.ctor_default TestFSM basic_states_nonempty rfl {}).ctx
      = { value := 1, enter_called := true } := by
  obtain ⟨_, hA, hOther, _, hctx, _⟩ :=
    default_initial_state TestFSM basic_states_nonempty rfl {}
  exact ⟨hA, hOther StateId.StateB (by decide), hctx⟩

end ClaimsTestBasicFsm

section ClaimsSimpleWorking

open SimpleWorking

/-- C20 on the first update of `samples/simple_working.cpp`: from StateA the
Runner enters StateB and stops there with counter 1, although `StateB` leaves
for StateC in every update of its own. -/
theorem one_step_per_tick_witness :
    Runner.update SimpleFSM simple_static_asserts ⟨.alt StateId.StateA simple_contains_StateA ()⟩
        { counter := 0 } =
      { runner := ⟨.alt StateId.StateB simple_contains_StateB ()⟩
        ctx := { counter := 1 }
        calls := [Call.on_update StateId.StateA, Call.on_exit StateId.StateA,
          Call.construct StateId.StateB (), Call.on_enter StateId.StateB] } := by
  rcases one_step_per_tick SimpleFSM simple_static_asserts StateId.StateA
    simple_contains_StateA () { counter := 0 } with h | ⟨T, t, hT, hne, hheld, h⟩
  · exact absurd (congrArg (fun st => st.calls.length) h) (by decide)
  · cases hheld
    exact h

end ClaimsSimpleWorking

/-! ## Rounding of float addition -/

theorem F32.log2Aux_le (ss : List Nat) (n acc : Nat) (hn : 1 ≤ n) :
    2 ^ F32.log2Aux ss n acc ≤ 2 ^ acc * n := by
  induction ss generalizing n acc with
  | nil =>
    simp only [F32.log2Aux]
    exact Nat.le_mul_of_pos_right _ hn
  | cons s ss ih =>
    simp only [F32.log2Aux]
    split
    · rename_i hs
      have h1 : 1 ≤ n / 2 ^ s := (Nat.one_le_div_iff (Nat.two_pow_pos s)).mpr hs
      calc 2 ^ F32.log2Aux ss (n / 2 ^ s) (acc + s)
          ≤ 2 ^ (acc + s) * (n / 2 ^ s) := ih _ _ h1
        _ = 2 ^ acc * (2 ^ s * (n / 2 ^ s)) := by rw [Nat.pow_add, Nat.mul_assoc]
        _ ≤ 2 ^ acc * n := Nat.mul_le_mul_left _ (Nat.mul_div_le n (2 ^ s))
    · exact ih _ _ hn

theorem F32.log2_le (n : Nat) (hn : 1 ≤ n) : 2 ^ F32.log2 n ≤ n := by
  have h := F32.log2Aux_le [256, 128, 64, 32, 16, 8, 4, 2, 1] n 0 hn
  simpa [F32.log2] using h

theorem F32.roundNat_bounds (n : Nat) (hn : 2 ^ 24 ≤ n) :
    n ≤ F32.roundNat n + 2 ^ (F32.log2 n - 23 - 1) ∧
    F32.roundNat n ≤ n + 2 ^ (F32.log2 n - 23 - 1) := by
  have hlt : ¬ n < 2 ^ 24 := Nat.not_lt.mpr hn
  simp only [F32.roundNat, hlt, if_false]
  generalize hp : F32.log2 n - 23 = p
  have hP : 2 ^ p ≤ 2 * 2 ^ (p - 1) := by
    cases p with
    | zero => simp
    | succ m => simp [Nat.pow_succ, Nat.mul_comm]
  have hrem : n % 2 ^ p < 2 ^ p := Nat.mod_lt _ (Nat.two_pow_pos p)
  have hdm : 2 ^ p * (n / 2 ^ p) + n % 2 ^ p = n := Nat.div_add_mod n (2 ^ p)
  rw [Nat.mul_comm] at hdm
  generalize 2 ^ p = P at *
  generalize 2 ^ (p - 1) = h at *
  generalize n % P = r at *
  generalize hq : n / P = q at *
  have hsucc : (q + 1) * P = q * P + P := Nat.succ_mul q P
  split
  · omega
  · split
    · split <;> omega
    · omega

theorem F32.acc_le_log2Aux (ss : List Nat) (n acc : Nat) : acc ≤ F32.log2Aux ss n acc := by
  induction ss generalizing n acc with
  | nil => simp [F32.log2Aux]
  | cons s ss ih =>
    simp only [F32.log2Aux]
    split
    · exact Nat.le_trans (Nat.le_add_right acc s) (ih _ _)
    · exact ih _ _

/-- The search over the widths 2^(j-1), ..., 2, 1 finds the leading bit of any
number below 2^(2^j). -/
theorem F32.log2Aux_lt (j : Nat) (n acc : Nat) (hn : n < 2 ^ 2 ^ j) :
    2 ^ acc * n < 2 ^ (F32.log2Aux (((List.range j).map (fun i => 2 ^ i)).reverse) n acc + 1) := by
  induction j generalizing n acc with
  | zero =>
    have h1 : n < 2 := by simpa using hn
    simp only [List.range_zero, List.map_nil, List.reverse_nil, F32.log2Aux]
    rw [Nat.pow_succ]
    exact Nat.mul_lt_mul_of_le_of_lt (Nat.le_refl _) h1 (Nat.two_pow_pos acc)
  | succ j ih =>
    simp only [List.range_succ, List.map_append, List.map_cons, List.map_nil,
      List.reverse_append, List.reverse_cons, List.reverse_nil, List.nil_append,
      List.singleton_append, F32.log2Aux]
    split
    · rename_i hs
      have hsq : (2 : Nat) ^ 2 ^ (j + 1) = 2 ^ 2 ^ j * 2 ^ 2 ^ j := by
        rw [← Nat.pow_add, Nat.pow_succ, Nat.mul_two]
      have hdiv : n / 2 ^ 2 ^ j < 2 ^ 2 ^ j := by
        apply Nat.div_lt_of_lt_mul
        rw [← hsq]
        exact hn
      have hih := ih (n / 2 ^ 2 ^ j) (acc + 2 ^ j) hdiv
      have hge := F32.acc_le_log2Aux (((List.range j).map (fun i => 2 ^ i)).reverse)
        (n / 2 ^ 2 ^ j) (acc + 2 ^ j)
      generalize F32.log2Aux (((List.range j).map (fun i => 2 ^ i)).reverse)
        (n / 2 ^ 2 ^ j) (acc + 2 ^ j) = res at hih hge ⊢
      obtain ⟨d, hd⟩ := Nat.exists_eq_add_of_le (Nat.le_succ_of_le hge)
      rw [Nat.succ_eq_add_one] at hd
      rw [hd, Nat.pow_add (a := 2) (m := acc + 2 ^ j) (n := d)] at hih ⊢
      have hlt : n / 2 ^ 2 ^ j < 2 ^ d := Nat.lt_of_mul_lt_mul_left hih
      have hn2 : n < 2 ^ 2 ^ j * (n / 2 ^ 2 ^ j + 1) := Nat.lt_mul_div_succ n (Nat.two_pow_pos _)
      calc 2 ^ acc * n < 2 ^ acc * (2 ^ 2 ^ j * (n / 2 ^ 2 ^ j + 1)) :=
            Nat.mul_lt_mul_of_le_of_lt (Nat.le_refl _) hn2 (Nat.two_pow_pos acc)
        _ = 2 ^ (acc + 2 ^ j) * (n / 2 ^ 2 ^ j + 1) := by rw [Nat.pow_add, Nat.mul_assoc]
        _ ≤ 2 ^ (acc + 2 ^ j) * 2 ^ d := Nat.mul_le_mul_left _ hlt
    · rename_i hs
      exact ih n acc (Nat.not_le.mp hs)

theorem F32.lt_log2 (n : Nat) (hn : n < 2 ^ 2 ^ 9) : n < 2 ^ (F32.log2 n + 1) := by
  have h := F32.log2Aux_lt 9 n 0 hn
  simpa [F32.log2, List.range, List.range.loop] using h

/-- The rounding keeps 24 significant bits: above the subnormal range the
result is a multiple m of the quantum with m between 2^23 and 2^24. -/
theorem F32.roundNat_mantissa (n : Nat) (h24 : 2 ^ 24 ≤ n) (hn : n < 2 ^ 2 ^ 9) :
    ∃ m : Nat, F32.roundNat n = m * 2 ^ (F32.log2 n - 23) ∧ 2 ^ 23 ≤ m ∧ m ≤ 2 ^ 24 := by
  have hlo := F32.log2_le n (Nat.le_trans (Nat.one_le_two_pow) h24)
  have hhi := F32.lt_log2 n hn
  have hlog : 24 ≤ F32.log2 n := by
    have h1 : (2 : Nat) ^ 24 < 2 ^ (F32.log2 n + 1) := Nat.lt_of_le_of_lt h24 hhi
    have h2 := (Nat.pow_lt_pow_iff_right (a := 2) (by norm_num)).mp h1
    omega
  have hlt : ¬ n < 2 ^ 24 := Nat.not_lt.mpr h24
  simp only [F32.roundNat, hlt, if_false]
  generalize hp : F32.log2 n - 23 = p
  have hlp : F32.log2 n = p + 23 := by omega
  rw [hlp] at hlo hhi
  have hq1 : 2 ^ 23 ≤ n / 2 ^ p := by
    rw [Nat.le_div_iff_mul_le (Nat.two_pow_pos p), ← Nat.pow_add, Nat.add_comm]
    exact hlo
  have hq2 : n / 2 ^ p < 2 ^ 24 := by
    rw [Nat.div_lt_iff_lt_mul (Nat.two_pow_pos p), ← Nat.pow_add, Nat.add_comm]
    exact hhi
  split
  · exact ⟨_, rfl, hq1, Nat.le_of_lt hq2⟩
  · split
    · split
      · exact ⟨_, rfl, hq1, Nat.le_of_lt hq2⟩
      · exact ⟨_, rfl, Nat.le_succ_of_le hq1, hq2⟩
    · exact ⟨_, rfl, Nat.le_succ_of_le hq1, hq2⟩

theorem F32.add_tenth_gt (k : Int) (hk : k.natAbs ≤ 2 ^ 169) :
    ∃ r : Int, F32.add (F32.finite k) F32.tenth = F32.finite r ∧ k < r := by
  simp only [F32.add, F32.tenth, F32.ofUnits, F32.round]
  generalize hn : (k + ((13421773 * 2 ^ 122 : Nat) : Int)).natAbs = n
  have hn170 : n < 2 ^ 170 := by
    norm_num at hk hn ⊢
    omega
  have hR : n ≤ F32.roundNat n + 2 ^ 145 ∧ F32.roundNat n ≤ n + 2 ^ 145 := by
    by_cases h24 : n < 2 ^ 24
    · have hrn : F32.roundNat n = n := by
        unfold F32.roundNat
        rw [if_pos h24]
      rw [hrn]
      omega
    · have hb := F32.roundNat_bounds n (Nat.not_lt.mp h24)
      have h1 := F32.log2_le n (by omega)
      have h3 : F32.log2 n < 170 :=
        (Nat.pow_lt_pow_iff_right (a := 2) (by norm_num)).mp (lt_of_le_of_lt h1 hn170)
      have hlog : F32.log2 n - 23 - 1 ≤ 145 := by omega
      have hpow : 2 ^ (F32.log2 n - 23 - 1) ≤ 2 ^ 145 :=
        Nat.pow_le_pow_right (by norm_num) hlog
      omega
  have hno : ¬ (2 ^ 128 * 2 ^ 149 ≤ F32.roundNat n) := by
    norm_num at hn170 hR ⊢
    omega
  rw [if_neg hno]
  refine ⟨_, rfl, ?_⟩
  split
  · rename_i hneg
    norm_num at hk hn hR hneg ⊢
    omega
  · rename_i hneg
    norm_num at hk hn hR hneg ⊢
    omega

theorem F32.log2_eq (n e : Nat) (h1 : 2 ^ e ≤ n) (h2 : n < 2 ^ (e + 1)) (hn : n < 2 ^ 2 ^ 9) :
    F32.log2 n = e := by
  have hlo := F32.log2_le n (Nat.le_trans Nat.one_le_two_pow h1)
  have hhi := F32.lt_log2 n hn
  have ha : e < F32.log2 n + 1 :=
    (Nat.pow_lt_pow_iff_right (a := 2) (by norm_num)).mp (lt_of_le_of_lt h1 hhi)
  have hb : F32.log2 n < e + 1 :=
    (Nat.pow_lt_pow_iff_right (a := 2) (by norm_num)).mp (lt_of_le_of_lt hlo h2)
  omega

/-- A number with leading bit p + 24 rounds to the multiple of 2^(p+1) that is
less than 2^p away from it. -/
theorem F32.roundNat_nearest (n p v : Nat) (h1 : 2 ^ (p + 24) ≤ n) (h2 : n < 2 ^ (p + 25))
    (hn : n < 2 ^ 2 ^ 9) (hv : ∃ g : Nat, v = g * 2 ^ (p + 1)) (hlo : v < n + 2 ^ p)
    (hhi : n < v + 2 ^ p) : F32.roundNat n = v := by
  have hlog := F32.log2_eq n (p + 24) h1 h2 hn
  have h24 : ¬ n < 2 ^ 24 := by
    have h : (2 : Nat) ^ 24 ≤ 2 ^ (p + 24) := Nat.pow_le_pow_right (by norm_num) (by omega)
    omega
  obtain ⟨g, rfl⟩ := hv
  simp only [F32.roundNat, h24, if_false, hlog]
  have e1 : p + 24 - 23 = p + 1 := by omega
  have e2 : p + 1 - 1 = p := by omega
  rw [e1, e2]
  have hP : 2 ^ (p + 1) = 2 * 2 ^ p := by rw [Nat.pow_succ, Nat.mul_comm]
  have hrem := Nat.mod_lt n (Nat.two_pow_pos (p + 1))
  have hdm := Nat.div_add_mod n (2 ^ (p + 1))
  rw [Nat.mul_comm] at hdm
  generalize 2 ^ (p + 1) = P at *
  generalize 2 ^ p = H at *
  generalize n % P = r at *
  generalize n / P = q at *
  have hq : g = q ∨ g = q + 1 := by
    have a1 : g * P < (q + 2) * P := by
      have h : (q + 2) * P = q * P + 2 * P := by ring
      omega
    have a2 : q * P < (g + 1) * P := by
      have h : (g + 1) * P = g * P + P := by ring
      omega
    have b1 := Nat.lt_of_mul_lt_mul_right a1
    have b2 := Nat.lt_of_mul_lt_mul_right a2
    omega
  have hs : (q + 1) * P = q * P + P := Nat.succ_mul q P
  rcases hq with rfl | rfl
  · rw [if_pos (by omega)]
  · rw [hs] at hlo hhi
    rw [if_neg (by omega), if_neg (by omega)]

/-- A float above 2^20 in magnitude is a multiple m of a quantum 2^146 * 2^j
(in units of 2^-149) with m between 2^23 and 2^24. -/
theorem F32.float_decomp (n : Nat) (hfix : F32.roundNat n = n) (h169 : 2 ^ 169 < n)
    (hn : n < 2 ^ 2 ^ 9) :
    ∃ m j : Nat, n = m * (2 ^ 146 * 2 ^ j) ∧ 2 ^ 23 ≤ m ∧ m < 2 ^ 24 := by
  have h24 : 2 ^ 24 ≤ n := by
    have h : (2 : Nat) ^ 24 ≤ 2 ^ 169 := Nat.pow_le_pow_right (by norm_num) (by norm_num)
    omega
  obtain ⟨m, hm, hm1, hm2⟩ := F32.roundNat_mantissa n h24 hn
  rw [hfix] at hm
  have hhi := F32.lt_log2 n hn
  have hl : 169 < F32.log2 n + 1 :=
    (Nat.pow_lt_pow_iff_right (a := 2) (by norm_num)).mp (lt_trans h169 hhi)
  obtain ⟨j, hj⟩ : ∃ j, F32.log2 n = 169 + j := ⟨F32.log2 n - 169, by omega⟩
  have hp : F32.log2 n - 23 = 146 + j := by omega
  have hp1 : F32.log2 n + 1 = 146 + j + 24 := by omega
  rw [hp] at hm
  rw [hp1] at hhi
  rw [pow_add] at hm
  refine ⟨m, j, hm, hm1, ?_⟩
  by_contra hc
  have hm24 : m = 2 ^ 24 := by omega
  rw [hm24] at hm
  rw [pow_add (2 : Nat) (146 + j) 24, pow_add (2 : Nat) 146 j] at hhi
  rw [hm, Nat.mul_comm] at hhi
  exact lt_irrefl _ hhi

theorem F32.float_fix (k : Int) (hrep : F32.round k = F32.finite k) :
    F32.roundNat k.natAbs = k.natAbs ∧ k.natAbs < 2 ^ 128 * 2 ^ 149 := by
  unfold F32.round at hrep
  split at hrep
  · exact absurd hrep (by simp)
  · rename_i hno
    injection hrep with h
    refine ⟨?_, ?_⟩
    · split at h <;> omega
    · have h2 : F32.roundNat k.natAbs = k.natAbs := by
        split at h <;> omega
      rw [h2] at hno
      omega

/-- Adding 0.1f to a float above 2^20: below 2^21 the sum rounds up to the next
float, from 2^21 on it rounds back. -/
theorem F32.roundNat_add_tenth (n : Nat) (hfix : F32.roundNat n = n) (h169 : 2 ^ 169 < n)
    (hn : n < 2 ^ 128 * 2 ^ 149) :
    F32.roundNat (n + 13421773 * 2 ^ 122) = if n < 2 ^ 170 then n + 2 ^ 146 else n := by
  have hn512 : n < 2 ^ 2 ^ 9 := by
    norm_num at hn ⊢
    omega
  obtain ⟨m, j, hm, hm1, hm2⟩ := F32.float_decomp n hfix h169 hn512
  have hA : 2 ^ (145 + j + 24) = 2 ^ 169 * 2 ^ j := by
    rw [show 145 + j + 24 = 169 + j by omega, pow_add]
  have hB : 2 ^ (145 + j + 25) = 2 ^ 170 * 2 ^ j := by
    rw [show 145 + j + 25 = 170 + j by omega, pow_add]
  have hC : 2 ^ (145 + j + 1) = 2 ^ 146 * 2 ^ j := by
    rw [show 145 + j + 1 = 146 + j by omega, pow_add]
  have hD : 2 ^ (145 + j) = 2 ^ 145 * 2 ^ j := pow_add 2 145 j
  have hJ : 2 ^ j = 1 ∨ 2 ≤ 2 ^ j := by
    have h := Nat.one_le_two_pow (n := j)
    omega
  have hb1 : 2 ^ 23 * (2 ^ 146 * 2 ^ j) ≤ n := by
    rw [hm]
    exact Nat.mul_le_mul_right _ hm1
  have hb2 : n + 2 ^ 146 * 2 ^ j ≤ 2 ^ 24 * (2 ^ 146 * 2 ^ j) := by
    have h := Nat.mul_le_mul_right (2 ^ 146 * 2 ^ j) (Nat.succ_le_of_lt hm2)
    rw [Nat.succ_mul, ← hm] at h
    exact h
  have hg1 : ∃ g : Nat, n + 2 ^ 146 * 2 ^ j = g * 2 ^ (145 + j + 1) :=
    ⟨m + 1, by rw [hC, Nat.succ_mul, ← hm]⟩
  have hg0 : ∃ g : Nat, n = g * 2 ^ (145 + j + 1) := ⟨m, by rw [hC]; exact hm⟩
  have key : ∀ v : Nat, (∃ g : Nat, v = g * 2 ^ (145 + j + 1)) →
      v < n + 13421773 * 2 ^ 122 + 2 ^ (145 + j) → n + 13421773 * 2 ^ 122 < v + 2 ^ (145 + j) →
      F32.roundNat (n + 13421773 * 2 ^ 122) = v := by
    intro v hv hlo hhi
    refine F32.roundNat_nearest _ (145 + j) v ?_ ?_ ?_ hv hlo hhi
    · rw [hA]
      generalize 2 ^ j = J at *
      norm_num at hb1 ⊢
      omega
    · rw [hB]
      generalize 2 ^ j = J at *
      norm_num at hb2 hJ ⊢
      omega
    · norm_num at hn ⊢
      omega
  rw [hD] at key
  generalize 2 ^ (145 + j + 1) = P at *
  generalize 2 ^ j = J at *
  rcases hJ with hJ | hJ
  · subst hJ
    have hlt : n < 2 ^ 170 := by
      norm_num at hb2 ⊢
      omega
    rw [if_pos hlt]
    refine (key (n + 2 ^ 146) ?_ ?_ ?_)
    · simpa using hg1
    · omega
    · omega
  · have hge : ¬ n < 2 ^ 170 := by
      norm_num at hb1 ⊢
      omega
    rw [if_neg hge]
    refine key n hg0 ?_ ?_
    · omega
    · omega

/-- Subtracting 0.1f from the magnitude of a float above 2^20: up to 2^21 the
difference rounds down to the float below, above 2^21 it rounds back. -/
theorem F32.roundNat_sub_tenth (n : Nat) (hfix : F32.roundNat n = n) (h169 : 2 ^ 169 < n)
    (hn : n < 2 ^ 128 * 2 ^ 149) :
    F32.roundNat (n - 13421773 * 2 ^ 122) = if n ≤ 2 ^ 170 then n - 2 ^ 146 else n := by
  have hn512 : n - 13421773 * 2 ^ 122 < 2 ^ 2 ^ 9 := by
    norm_num at hn ⊢
    omega
  have hn512' : n < 2 ^ 2 ^ 9 := by
    norm_num at hn ⊢
    omega
  obtain ⟨m, j, hm, hm1, hm2⟩ := F32.float_decomp n hfix h169 hn512'
  by_cases hm23 : m = 2 ^ 23
  · subst hm23
    rcases j with _ | _ | i
    · exfalso
      omega
    · have hn170 : n = 2 ^ 170 := by
        omega
      subst hn170
      rw [if_pos (le_refl _)]
      refine F32.roundNat_nearest _ 145 _ ?_ ?_ hn512 ⟨2 ^ 24 - 1, ?_⟩ ?_ ?_
      · omega
      · omega
      · norm_num
      · omega
      · omega
    · have hA : 2 ^ (146 + i + 24) = 2 ^ 170 * 2 ^ i := by
        rw [show 146 + i + 24 = 170 + i by omega, pow_add]
      have hB : 2 ^ (146 + i + 25) = 2 ^ 171 * 2 ^ i := by
        rw [show 146 + i + 25 = 171 + i by omega, pow_add]
      have hC : 2 ^ (146 + i + 1) = 2 ^ 147 * 2 ^ i := by
        rw [show 146 + i + 1 = 147 + i by omega, pow_add]
      have hD : 2 ^ (146 + i) = 2 ^ 146 * 2 ^ i := pow_add 2 146 i
      have h2 : 2 ^ (i + 1 + 1) = 2 ^ i * 2 * 2 := by rw [pow_succ, pow_succ]
      have hI := Nat.one_le_two_pow (n := i)
      rw [h2] at hm
      have hgt : ¬ n ≤ 2 ^ 170 := by
        generalize 2 ^ i = I at *
        omega
      rw [if_neg hgt]
      refine F32.roundNat_nearest _ (146 + i) n ?_ ?_ hn512 ⟨2 ^ 24, ?_⟩ ?_ ?_
      · rw [hA]
        generalize 2 ^ i = I at *
        omega
      · rw [hB]
        generalize 2 ^ i = I at *
        omega
      · rw [hC]
        generalize 2 ^ i = I at *
        omega
      · rw [hD]
        generalize 2 ^ i = I at *
        omega
      · rw [hD]
        generalize 2 ^ i = I at *
        omega
  · have hm1' : 2 ^ 23 + 1 ≤ m := by omega
    have hA : 2 ^ (145 + j + 24) = 2 ^ 169 * 2 ^ j := by
      rw [show 145 + j + 24 = 169 + j by omega, pow_add]
    have hB : 2 ^ (145 + j + 25) = 2 ^ 170 * 2 ^ j := by
      rw [show 145 + j + 25 = 170 + j by omega, pow_add]
    have hC : 2 ^ (145 + j + 1) = 2 ^ 146 * 2 ^ j := by
      rw [show 145 + j + 1 = 146 + j by omega, pow_add]
    have hD : 2 ^ (145 + j) = 2 ^ 145 * 2 ^ j := pow_add 2 145 j
    have hJ : 2 ^ j = 1 ∨ 2 ≤ 2 ^ j := by
      have h := Nat.one_le_two_pow (n := j)
      omega
    have hb1 : (2 ^ 23 + 1) * (2 ^ 146 * 2 ^ j) ≤ n := by
      rw [hm]
      exact Nat.mul_le_mul_right _ hm1'
    have hb2 : n + 2 ^ 146 * 2 ^ j ≤ 2 ^ 24 * (2 ^ 146 * 2 ^ j) := by
      have h := Nat.mul_le_mul_right (2 ^ 146 * 2 ^ j) (Nat.succ_le_of_lt hm2)
      rw [Nat.succ_mul, ← hm] at h
      exact h
    have hg1 : ∃ g : Nat, n - 2 ^ 146 * 2 ^ j = g * 2 ^ (145 + j + 1) :=
      ⟨m - 1, by rw [hC, Nat.sub_mul, Nat.one_mul, ← hm]⟩
    have hg0 : ∃ g : Nat, n = g * 2 ^ (145 + j + 1) := ⟨m, by rw [hC]; exact hm⟩
    have key : ∀ v : Nat, (∃ g : Nat, v = g * 2 ^ (145 + j + 1)) →
        v < n - 13421773 * 2 ^ 122 + 2 ^ (145 + j) →
        n - 13421773 * 2 ^ 122 < v + 2 ^ (145 + j) →
        F32.roundNat (n - 13421773 * 2 ^ 122) = v := by
      intro v hv hlo hhi
      refine F32.roundNat_nearest _ (145 + j) v ?_ ?_ hn512 hv hlo hhi
      · rw [hA]
        generalize 2 ^ j = J at *
        omega
      · rw [hB]
        generalize 2 ^ j = J at *
        omega
    rw [hD] at key
    generalize 2 ^ (145 + j + 1) = P at *
    generalize 2 ^ j = J at *
    rcases hJ with hJ | hJ
    · subst hJ
      simp only [Nat.mul_one] at hg1 key hb1 hb2
      clear hA hB hD hC hm hg0 hfix hm23 hm1 hm2 hm1' hn512 hn512'
      have hle : n ≤ 2 ^ 170 := by
        omega
      rw [if_pos hle]
      refine (key (n - 2 ^ 146) hg1 ?_ ?_)
      · omega
      · omega
    · have hgt : ¬ n ≤ 2 ^ 170 := by
        omega
      rw [if_neg hgt]
      refine key n hg0 ?_ ?_
      · omega
      · omega

/-- The float comparison `x < x + 0.1f` on a float x: true exactly from
-2097152.0f (included) to 2097152.0f (excluded). -/
theorem F32.add_tenth_lt_iff (k : Int) (hrep : F32.round k = F32.finite k) :
    F32.lt (F32.finite k) (F32.add (F32.finite k) F32.tenth) = true ↔
      -((2 ^ 21 * 2 ^ 149 : Nat) : Int) ≤ k ∧ k < ((2 ^ 21 * 2 ^ 149 : Nat) : Int) := by
  obtain ⟨hfix, hfin⟩ := F32.float_fix k hrep
  by_cases hsmall : k.natAbs ≤ 2 ^ 169
  · obtain ⟨r, hadd, hlt⟩ := F32.add_tenth_gt k hsmall
    rw [hadd]
    simp only [F32.lt, decide_eq_true_eq]
    refine ⟨fun _ => ?_, fun _ => hlt⟩
    omega
  · have h169 : 2 ^ 169 < k.natAbs := by omega
    have hpos := F32.roundNat_add_tenth k.natAbs hfix h169 hfin
    have hneg := F32.roundNat_sub_tenth k.natAbs hfix h169 hfin
    simp only [F32.add, F32.tenth, F32.ofUnits, F32.round]
    by_cases hk : 0 ≤ k
    · have hn : (k + ((13421773 * 2 ^ 122 : Nat) : Int)).natAbs
          = k.natAbs + 13421773 * 2 ^ 122 := by omega
      have hs : ¬ (k + ((13421773 * 2 ^ 122 : Nat) : Int) < 0) := by omega
      rw [hn, hpos, if_neg hs]
      by_cases h170 : k.natAbs < 2 ^ 170
      · rw [if_pos h170, if_neg (by omega)]
        simp only [F32.lt, decide_eq_true_eq]
        omega
      · rw [if_neg h170, if_neg (by omega)]
        simp only [F32.lt, decide_eq_true_eq]
        omega
    · have hn : (k + ((13421773 * 2 ^ 122 : Nat) : Int)).natAbs
          = k.natAbs - 13421773 * 2 ^ 122 := by omega
      have hs : k + ((13421773 * 2 ^ 122 : Nat) : Int) < 0 := by omega
      rw [hn, hneg, if_pos hs]
      by_cases h170 : k.natAbs ≤ 2 ^ 170
      · rw [if_pos h170, if_neg (by omega)]
        simp only [F32.lt, decide_eq_true_eq]
        omega
      · rw [if_neg h170, if_neg (by omega)]
        simp only [F32.lt, decide_eq_true_eq]
        omega

/-! ## The hierarchical test -/

section ClaimsTestHierarchicalFsm

open TestHierarchicalFsm

theorem parent_static_asserts : ParentFSM.targets_declared = true := by
  decide

theorem parent_contains_IdleState :
    contains_v ParentId.IdleState [.IdleState, .MovingState] = true := by
  decide

theorem parent_contains_MovingState :
    contains_v ParentId.MovingState [.IdleState, .MovingState] = true := by
  decide

theorem sub_contains_SubWalk : contains_v SubId.SubWalk [.SubWalk, .SubRun] = true := by
  decide

theorem MovingState_on_update_some (sub : SubRunner) (ctx : HierContext) :
    MovingState.on_update (some sub) ctx =
      (if F32.le (sub_fsm_update sub ctx).ctx.speed F32.zero then
        (⟨⟨0, by decide⟩, make_transition ParentId.IdleState ()⟩,
          some (sub_fsm_update sub ctx).runner, (sub_fsm_update sub ctx).ctx)
      else
        (⟨⟨1, by decide⟩, make_transition ParentId.MovingState ()⟩,
          some (sub_fsm_update sub ctx).runner, (sub_fsm_update sub ctx).ctx)) := rfl

/-- C17. Hierarchical teardown: with MovingState active and either nested
state active inside it, whenever the nested update leaves a speed that is at
most 0, the outer update leaves MovingState for IdleState: `MovingState::on_exit`
has dropped the nested Runner when it returns, and the update ends with
parent_state 1, sub_state 0, walking and running false, and the outer Runner in
IdleState. -/
theorem hierarchical_teardown (N : SubId) (hN : contains_v N [SubId.SubWalk, SubId.SubRun] = true)
    (ctx : HierContext)
    (hspeed : F32.le (sub_fsm_update ⟨.alt N hN ()⟩ ctx).ctx.speed F32.zero = true) :
    Runner.update ParentFSM parent_static_asserts
        ⟨.alt ParentId.MovingState parent_contains_MovingState (some ⟨.alt N hN ()⟩)⟩ ctx =
      { runner := ⟨.alt ParentId.IdleState parent_contains_IdleState ()⟩
        ctx := { (sub_fsm_update ⟨.alt N hN ()⟩ ctx).ctx with
          sub_state := 0, walking := false, running := false, parent_state := 1 }
        calls := [Call.on_update ParentId.MovingState, Call.on_exit ParentId.MovingState,
          Call.construct ParentId.IdleState (), Call.on_enter ParentId.IdleState] } ∧
    (MovingState.on_exit (some (sub_fsm_update ⟨.alt N hN ()⟩ ctx).runner)
        (sub_fsm_update ⟨.alt N hN ()⟩ ctx).ctx).1 = none := by
  have hup : (ParentFSM.types ParentId.MovingState).on_update (some ⟨.alt N hN ()⟩) ctx =
      (⟨⟨0, by decide⟩, make_transition ParentId.IdleState ()⟩,
        some (sub_fsm_update ⟨.alt N hN ()⟩ ctx).runner, (sub_fsm_update ⟨.alt N hN ()⟩ ctx).ctx) := by
    show MovingState.on_update (some ⟨.alt N hN ()⟩) ctx = _
    rw [MovingState_on_update_some, if_pos hspeed]
  refine ⟨?_, rfl⟩
  have hheld : RetType.Val.held _
      ((ParentFSM.types ParentId.MovingState).on_update (some ⟨.alt N hN ()⟩) ctx).1
      = some ⟨ParentId.IdleState, make_transition ParentId.IdleState ()⟩ := by
    rw [hup]
    rfl
  rw [update_of_held ParentFSM parent_static_asserts ParentId.MovingState
    parent_contains_MovingState _ ctx ParentId.IdleState _ hheld parent_contains_IdleState,
    apply_transition_ne ParentFSM _ ParentId.MovingState _ parent_contains_IdleState _ (by decide),
    hup]
  rfl

theorem IdleState_on_update_eq (ctx : HierContext) :
    IdleState.on_update () ctx =
      (if F32.lt F32.zero ctx.speed then
        (⟨⟨1, by decide⟩, make_transition ParentId.MovingState ()⟩, (), ctx)
      else
        (⟨⟨0, by decide⟩, make_transition ParentId.IdleState ()⟩, (), ctx)) := rfl

/-- C18. Nested start-up: with IdleState active and a speed above 0, one outer
update moves to MovingState and, inside that update, builds the nested Runner
in SubWalk by its construction and `on_enter` alone, with no nested
`on_update`; the update ends with parent_state 2, sub_state 1, walking true,
running false and speed exactly 3.0. -/
theorem nested_start_up (ctx : HierContext) (hspeed : F32.lt F32.zero ctx.speed = true) :
    Runner.update ParentFSM parent_static_asserts
        ⟨.alt ParentId.IdleState parent_contains_IdleState ()⟩ ctx =
      { runner := ⟨.alt ParentId.MovingState parent_contains_MovingState
          (some ⟨.alt SubId.SubWalk sub_contains_SubWalk ()⟩)⟩
        ctx :=
          { ctx with
            parent_state := 2, sub_state := 1, walking := true, running := false, speed := F32.three }
        calls := [Call.on_update ParentId.IdleState, Call.on_exit ParentId.IdleState,
          Call.construct ParentId.MovingState (), Call.on_enter ParentId.MovingState] } ∧
    (sub_fsm_emplace { ctx with parent_state := 2 }).calls =
      [Call.construct SubId.SubWalk (), Call.on_enter SubId.SubWalk] := by
  have hup : (ParentFSM.types ParentId.IdleState).on_update () ctx =
      (⟨⟨1, by decide⟩, make_transition ParentId.MovingState ()⟩, (), ctx) := by
    show IdleState.on_update () ctx = _
    rw [IdleState_on_update_eq, if_pos hspeed]
  refine ⟨?_, rfl⟩
  have hheld : RetType.Val.held _
      ((ParentFSM.types ParentId.IdleState).on_update () ctx).1
      = some ⟨ParentId.MovingState, make_transition ParentId.MovingState ()⟩ := by
    rw [hup]
    rfl
  rw [update_of_held ParentFSM parent_static_asserts ParentId.IdleState
    parent_contains_IdleState _ ctx ParentId.MovingState _ hheld parent_contains_MovingState,
    apply_transition_ne ParentFSM _ ParentId.IdleState _ parent_contains_MovingState _ (by decide),
    hup]
  rfl

theorem SubWalk_on_update_eq (ctx : HierContext) :
    SubWalk.on_update () ctx =
      (if ctx.should_run then
        (⟨⟨1, by decide⟩, make_transition SubId.SubRun ()⟩, (),
          { ctx with speed := F32.add ctx.speed F32.tenth })
      else
        (⟨⟨0, by decide⟩, make_transition SubId.SubWalk ()⟩, (),
          { ctx with speed := F32.add ctx.speed F32.tenth })) := rfl

theorem sub_update_walk (ctx : HierContext) (hrun : ctx.should_run = false) :
    sub_fsm_update ⟨.alt SubId.SubWalk sub_contains_SubWalk ()⟩ ctx =
      { runner := ⟨.alt SubId.SubWalk sub_contains_SubWalk ()⟩
        ctx := { ctx with speed := F32.add ctx.speed F32.tenth }
        calls := [Call.on_update SubId.SubWalk] } := by
  have hup : (SubFSM.types SubId.SubWalk).on_update () ctx =
      (⟨⟨0, by decide⟩, make_transition SubId.SubWalk ()⟩, (),
        { ctx with speed := F32.add ctx.speed F32.tenth }) := by
    show SubWalk.on_update () ctx = _
    rw [SubWalk_on_update_eq, hrun]
    rfl
  have hheld : RetType.Val.held _ ((SubFSM.types SubId.SubWalk).on_update () ctx).1
      = some ⟨SubId.SubWalk, make_transition SubId.SubWalk ()⟩ := by
    rw [hup]
    rfl
  unfold sub_fsm_update
  rw [update_of_held SubFSM _ SubId.SubWalk sub_contains_SubWalk _ ctx SubId.SubWalk _ hheld
    sub_contains_SubWalk, apply_transition_self, hup]

theorem parent_update_moving_speed (sub : SubRunner) (ctx : HierContext) :
    (Runner.update ParentFSM parent_static_asserts
        ⟨.alt ParentId.MovingState parent_contains_MovingState (some sub)⟩ ctx).ctx.speed
      = (sub_fsm_update sub ctx).ctx.speed := by
  by_cases hle : F32.le (sub_fsm_update sub ctx).ctx.speed F32.zero = true
  · have hup : (ParentFSM.types ParentId.MovingState).on_update (some sub) ctx =
        (⟨⟨0, by decide⟩, make_transition ParentId.IdleState ()⟩,
          some (sub_fsm_update sub ctx).runner, (sub_fsm_update sub ctx).ctx) := by
      show MovingState.on_update (some sub) ctx = _
      rw [MovingState_on_update_some, if_pos hle]
    have hheld : RetType.Val.held _
        ((ParentFSM.types ParentId.MovingState).on_update (some sub) ctx).1
        = some ⟨ParentId.IdleState, make_transition ParentId.IdleState ()⟩ := by
      rw [hup]
      rfl
    rw [update_of_held ParentFSM parent_static_asserts ParentId.MovingState
      parent_contains_MovingState _ ctx ParentId.IdleState _ hheld parent_contains_IdleState,
      apply_transition_ne ParentFSM _ ParentId.MovingState _ parent_contains_IdleState _
        (by decide), hup]
    rfl
  · have hup : (ParentFSM.types ParentId.MovingState).on_update (some sub) ctx =
        (⟨⟨1, by decide⟩, make_transition ParentId.MovingState ()⟩,
          some (sub_fsm_update sub ctx).runner, (sub_fsm_update sub ctx).ctx) := by
      show MovingState.on_update (some sub) ctx = _
      rw [MovingState_on_update_some, if_neg hle]
    have hheld : RetType.Val.held _
        ((ParentFSM.types ParentId.MovingState).on_update (some sub) ctx).1
        = some ⟨ParentId.MovingState, make_transition ParentId.MovingState ()⟩ := by
      rw [hup]
      rfl
    rw [update_of_held ParentFSM parent_static_asserts ParentId.MovingState
      parent_contains_MovingState _ ctx ParentId.MovingState _ hheld
      parent_contains_MovingState, apply_transition_self, hup]

end ClaimsTestHierarchicalFsm

section Lemmas3

variable {Context : Type} {ι : Type} [DecidableEq ι] {Args Inst : ι → Type} {States : List ι}

theorem switch_to_calls_no_on_update (M : FSM Context Args Inst States) (r : Runner Inst States)
    (Target : ι) (h : contains_v Target States = true) (ctx : Context) (a : Args Target) :
    ∀ c ∈ (r.switch_to M Target h ctx a).calls, ∀ T : ι, c ≠ Call.on_update T := by
  intro c hc T hEq
  subst hEq
  obtain ⟨cur⟩ := r
  cases cur with
  | monostate => simp [Runner.switch_to] at hc
  | alt Cur hCur s => simp [Runner.switch_to] at hc

theorem dispatch_calls_no_on_update (M : FSM Context Args Inst States) (r : Runner Inst States)
    (Cur : ι) (Tr : RetType ι) (h : ∀ Next ∈ Tr.targets, contains_v Next States = true)
    (v : Tr.Val Args) (ctx : Context) :
    ∀ c ∈ (Runner.dispatch M r Cur Tr h v ctx).calls, ∀ T : ι, c ≠ Call.on_update T := by
  have key : ∀ (Next : ι) (tr : Transition Args Next) (hN : contains_v Next States = true),
      ∀ c ∈ (r.apply_transition M Cur tr hN ctx).calls, ∀ T : ι, c ≠ Call.on_update T := by
    intro Next tr hN
    by_cases hEq : Next = Cur
    · subst hEq
      rw [apply_transition_self]
      intro c hc
      simp at hc
    · rw [apply_transition_ne M r Cur tr hN ctx hEq]
      exact switch_to_calls_no_on_update M r Next hN ctx tr.args
  cases Tr with
  | transition next => exact key next v _
  | variant alts =>
    obtain ⟨i, tr⟩ := v
    exact key _ tr _
  | other =>
    intro c hc
    simp [Runner.dispatch] at hc

theorem update_calls_one_on_update (M : FSM Context Args Inst States)
    (hsa : M.targets_declared = true) (S : ι) (hS : contains_v S States = true)
    (inst : Inst S) (ctx : Context) :
    ∃ rest : List (Call Args),
      (Runner.update M hsa ⟨.alt S hS inst⟩ ctx).calls = Call.on_update S :: rest ∧
      ∀ c ∈ rest, ∀ T : ι, c ≠ Call.on_update T :=
  ⟨_, rfl, dispatch_calls_no_on_update M _ S _ _ _ _⟩

end Lemmas3

section ClaimsTestHierarchicalFsm2

open TestHierarchicalFsm

/-- C19, amended. Nested advance: while MovingState is active with a nested
Runner in state N, the outer `on_update` makes one `update` of the nested
Runner, which makes exactly one nested `on_update`, and keeps the Runner and
the context that update leaves; the outer transition is decided afterwards,
on the speed the nested update left. With SubWalk active and should_run false
the speed after the outer update is the float sum of the old speed and 0.1f,
whatever the old speed; for an old speed that is a float, the new speed is
strictly greater exactly when the old speed is at least -2097152.0f and less
than 2097152.0f (2^21), so never for an infinity or a NaN. -/
theorem nested_advance (N : SubId) (hN : contains_v N [SubId.SubWalk, SubId.SubRun] = true)
    (ctx : HierContext) :
    (MovingState.on_update (some ⟨.alt N hN ()⟩) ctx).2 =
      (some (sub_fsm_update ⟨.alt N hN ()⟩ ctx).runner,
        (sub_fsm_update ⟨.alt N hN ()⟩ ctx).ctx) ∧
    RetType.Val.held _ (MovingState.on_update (some ⟨.alt N hN ()⟩) ctx).1 =
      (if F32.le (sub_fsm_update ⟨.alt N hN ()⟩ ctx).ctx.speed F32.zero then
        some ⟨ParentId.IdleState, make_transition ParentId.IdleState ()⟩
      else
        some ⟨ParentId.MovingState, make_transition ParentId.MovingState ()⟩) ∧
    (∃ rest : List (Call SubArgs),
      (sub_fsm_update ⟨.alt N hN ()⟩ ctx).calls = Call.on_update N :: rest ∧
      ∀ c ∈ rest, ∀ T : SubId, c ≠ Call.on_update T) ∧
    (∀ c : HierContext, c.should_run = false →
      (Runner.update ParentFSM parent_static_asserts
          ⟨.alt ParentId.MovingState parent_contains_MovingState
            (some ⟨.alt SubId.SubWalk sub_contains_SubWalk ()⟩)⟩ c).ctx.speed
        = F32.add c.speed F32.tenth) ∧
    (∀ c : HierContext, c.should_run = false → c.speed.is_float = true →
      (F32.lt c.speed
          (Runner.update ParentFSM parent_static_asserts
            ⟨.alt ParentId.MovingState parent_contains_MovingState
              (some ⟨.alt SubId.SubWalk sub_contains_SubWalk ()⟩)⟩ c).ctx.speed = true ↔
        F32.le (F32.neg (F32.ofUnits (2 ^ 21 * 2 ^ 149))) c.speed = true ∧
          F32.lt c.speed (F32.ofUnits (2 ^ 21 * 2 ^ 149)) = true)) := by
  have hsp : ∀ c : HierContext, c.should_run = false →
      (Runner.update ParentFSM parent_static_asserts
          ⟨.alt ParentId.MovingState parent_contains_MovingState
            (some ⟨.alt SubId.SubWalk sub_contains_SubWalk ()⟩)⟩ c).ctx.speed
        = F32.add c.speed F32.tenth := by
    intro c hrun
    rw [parent_update_moving_speed, sub_update_walk c hrun]
  refine ⟨?_, ?_, ?_, hsp, ?_⟩
  · rw [MovingState_on_update_some]
    split <;> rfl
  · rw [MovingState_on_update_some]
    split <;> rfl
  · exact update_calls_one_on_update SubFSM _ N hN () ctx
  · intro c hrun hfloat
    rw [hsp c hrun]
    generalize c.speed = x at hfloat ⊢
    cases x with
    | finite k =>
      have hrep : F32.round k = F32.finite k := of_decide_eq_true hfloat
      rw [F32.add_tenth_lt_iff k hrep]
      simp only [F32.le, F32.lt, F32.neg, F32.ofUnits, decide_eq_true_eq]
    | inf b =>
      cases b <;> simp [F32.add, F32.tenth, F32.ofUnits, F32.lt, F32.le, F32.neg]
    | nan =>
      simp [F32.add, F32.lt, F32.le, F32.neg, F32.ofUnits]

/-- C19 as stated fails at speed 2097152.0f (2^21): with SubWalk active and
should_run false the nested `on_update` adds 0.1f, the sum rounds back to
2097152.0f, and the speed after the outer update is not greater than before. -/
theorem nested_advance_absorbed :
    (Runner.update ParentFSM parent_static_asserts
        ⟨.alt ParentId.MovingState parent_contains_MovingState
          (some ⟨.alt SubId.SubWalk sub_contains_SubWalk ()⟩)⟩
        { speed := F32.ofUnits (2 ^ 21 * 2 ^ 149), walking := true, parent_state := 2,
          sub_state := 1 }).ctx.speed = F32.ofUnits (2 ^ 21 * 2 ^ 149) ∧
    F32.lt (F32.ofUnits (2 ^ 21 * 2 ^ 149))
      (Runner.update ParentFSM parent_static_asserts
        ⟨.alt ParentId.MovingState parent_contains_MovingState
          (some ⟨.alt SubId.SubWalk sub_contains_SubWalk ()⟩)⟩
        { speed := F32.ofUnits (2 ^ 21 * 2 ^ 149), walking := true, parent_state := 2,
          sub_state := 1 }).ctx.speed = false := by
  decide

/-- C19 amended, at the input of `UTEST(HierarchicalFSM, SubStateUpdate)`:
MovingState active with SubWalk inside and speed 3.0; the outer update leaves
speed 3.0999999 (13002342 times 2^-22), which is greater. -/
theorem nested_advance_witness :
    (Runner.update ParentFSM parent_static_asserts
        ⟨.alt ParentId.MovingState parent_contains_MovingState
          (some ⟨.alt SubId.SubWalk sub_contains_SubWalk ()⟩)⟩
        { speed := F32.three, walking := true, parent_state := 2, sub_state := 1 }).ctx.speed
      = F32.ofUnits (13002342 * 2 ^ 127) ∧
    F32.lt F32.three
      (Runner.update ParentFSM parent_static_asserts
        ⟨.alt ParentId.MovingState parent_contains_MovingState
          (some ⟨.alt SubId.SubWalk sub_contains_SubWalk ()⟩)⟩
        { speed := F32.three, walking := true, parent_state := 2, sub_state := 1 }).ctx.speed
      = true :=
  ⟨((nested_advance SubId.SubWalk sub_contains_SubWalk {}).2.2.2.1
      { speed := F32.three, walking := true, parent_state := 2, sub_state := 1 } rfl).trans
      (by decide),
    ((nested_advance SubId.SubWalk sub_contains_SubWalk {}).2.2.2.2
      { speed := F32.three, walking := true, parent_state := 2, sub_state := 1 } rfl
      (by decide)).mpr (by decide)⟩

/-- C17 at the input of `UTEST(HierarchicalFSM, ParentTransitionCleansSubFSM)`:
MovingState active with SubWalk inside, speed set to -1.0; the nested update
leaves -0.9 and the outer update ends in IdleState. -/
theorem hierarchical_teardown_witness :
    Runner.update ParentFSM parent_static_asserts
        ⟨.alt ParentId.MovingState parent_contains_MovingState
          (some ⟨.alt SubId.SubWalk sub_contains_SubWalk ()⟩)⟩
        { speed := F32.neg F32.one, walking := true, parent_state := 2, sub_state := 1 } =
      { runner := ⟨.alt ParentId.IdleState parent_contains_IdleState ()⟩
        ctx := { speed := F32.neg (F32.ofUnits (15099494 * 2 ^ 125)), walking := false,
                 running := false, parent_state := 1, sub_state := 0 }
        calls := [Call.on_update ParentId.MovingState, Call.on_exit ParentId.MovingState,
          Call.construct ParentId.IdleState (), Call.on_enter ParentId.IdleState] } :=
  (hierarchical_teardown SubId.SubWalk sub_contains_SubWalk
    { speed := F32.neg F32.one, walking := true, parent_state := 2, sub_state := 1 }
    (by decide)).1.trans rfl

/-- C18 at the input of `UTEST(HierarchicalFSM, InitialStateWithSubFSM)`:
IdleState active, speed set to 1.0. -/
theorem nested_start_up_witness :
    (Runner.update ParentFSM parent_static_asserts
        ⟨.alt ParentId.IdleState parent_contains_IdleState ()⟩
        { speed := F32.one, parent_state := 1 }).ctx =
      { speed := F32.three, walking := true, running := false, parent_state := 2,
        sub_state := 1 } ∧
    (Runner.update ParentFSM parent_static_asserts
        ⟨.alt ParentId.IdleState parent_contains_IdleState ()⟩
        { speed := F32.one, parent_state := 1 }).runner.is_in_state ParentId.MovingState
      = true :=
  ⟨(congrArg Step.ctx (nested_start_up { speed := F32.one, parent_state := 1 }
      (by decide)).1).trans rfl,
    (congrArg (fun st => st.runner.is_in_state ParentId.MovingState)
      (nested_start_up { speed := F32.one, parent_state := 1 } (by decide)).1).trans rfl⟩

end ClaimsTestHierarchicalFsm2

/-! ## Cycles, the bootstrap value, decay and forced re-entry -/

section Lemmas4

variable {Context : Type} {ι : Type} [DecidableEq ι] {Args Inst : ι → Type} {States : List ι}

theorem run_append_single (M : FSM Context Args Inst States)
    (st : Step Context Args Inst States) (ops : List (Op M)) (op : Op M) :
    Runner.run M st (ops ++ [op]) = Runner.exec M (Runner.run M st ops) op := by
  simp [Runner.run, List.foldl_append]

theorem update_monostate (M : FSM Context Args Inst States) (hsa : M.targets_declared = true)
    (ctx : Context) :
    Runner.update M hsa ⟨.monostate⟩ ctx = { runner := ⟨.monostate⟩, ctx := ctx, calls := [] } :=
  rfl

end Lemmas4

theorem simple_contains_StateC :
    contains_v SimpleWorking.StateId.StateC [.StateA, .StateB, .StateC] = true := by
  decide

theorem simple_contains_any (S : SimpleWorking.StateId) :
    contains_v S [.StateA, .StateB, .StateC] = true := by
  cases S <;> decide

theorem sub_contains_SubRun :
    contains_v TestHierarchicalFsm.SubId.SubRun [.SubWalk, .SubRun] = true := by
  decide

theorem sub_static_asserts : TestHierarchicalFsm.SubFSM.targets_declared = true := by
  decide

/-! ## The `int` fields at the end of their range -/

section ClaimsTestBasicFsm2

open TestBasicFsm

theorem int_wrap_of_range (x : Int) (h1 : INT_MIN ≤ x) (h2 : x ≤ INT_MAX) : int_wrap x = x := by
  unfold int_wrap
  unfold INT_MIN at h1
  unfold INT_MAX at h2
  omega

theorem int_wrap_add_wrap (x y : Int) : int_wrap (int_wrap x + y) = int_wrap (x + y) := by
  unfold int_wrap
  omega

theorem basic_update_stay_A (ctx : TestContext) (h : ctx.should_transition = false) :
    Runner.update TestFSM basic_static_asserts ⟨.alt StateId.StateA basic_contains_StateA ()⟩ ctx
      = { runner := ⟨.alt StateId.StateA basic_contains_StateA ()⟩
          ctx := { ctx with update_called := true, value := int_add ctx.value 1 }
          calls := [Call.on_update StateId.StateA] } := by
  obtain ⟨v, e, x, u, f⟩ := ctx
  simp only at h
  subst h
  rfl

theorem basic_update_stay_B (ctx : TestContext) (h : ctx.should_transition = false) :
    Runner.update TestFSM basic_static_asserts ⟨.alt StateId.StateB basic_contains_StateB ()⟩ ctx
      = { runner := ⟨.alt StateId.StateB basic_contains_StateB ()⟩
          ctx := { ctx with update_called := true, value := int_add ctx.value 10 }
          calls := [Call.on_update StateId.StateB] } := by
  obtain ⟨v, e, x, u, f⟩ := ctx
  simp only at h
  subst h
  rfl

theorem basic_run_invariant (n : Nat) :
    ∃ calls : List (Call Args),
      Runner.run TestFSM (Runner.ctor TestFSM StateId.StateA basic_contains_StateA rfl {})
          (List.replicate n (Op.update basic_static_asserts)) =
        { runner := ⟨.alt StateId.StateA basic_contains_StateA ()⟩
          ctx := { value := int_wrap (1 + (n : Int)), enter_called := true,
                   update_called := decide (0 < n) }
          calls := calls } := by
  induction n with
  | zero => exact ⟨_, rfl⟩
  | succ n ih =>
    obtain ⟨calls, hrun⟩ := ih
    refine ⟨calls ++ [Call.on_update StateId.StateA], ?_⟩
    rw [List.replicate_succ', run_append_single, hrun]
    simp only [Runner.exec]
    rw [basic_update_stay_A _ rfl]
    have hv : int_add (int_wrap (1 + (n : Int))) 1 = int_wrap (1 + ((n + 1 : Nat) : Int)) := by
      unfold int_add
      rw [int_wrap_add_wrap]
      congr 1
    simp only [hv, Nat.succ_pos, decide_True]

/-- C14 as stated fails where the `int` field is at INT_MAX, a configuration
the Runner reaches with StateA active and the flag clear: by a caller write of
2147483647 to `ctx.value`, and also by 2147483646 updates after construction.
The next update keeps StateA, and `ctx.value++` overflows: the value is
-2147483648 in the model, not 2147483648, and it has not increased. -/
theorem two_state_value_overflow :
    ((Runner.run TestFSM (Runner.ctor TestFSM StateId.StateA basic_contains_StateA rfl {})
        [Op.caller (fun c => { c with value := 2147483647 })]).ctx
        = { value := INT_MAX, enter_called := true } ∧
      (Runner.run TestFSM (Runner.ctor TestFSM StateId.StateA basic_contains_StateA rfl {})
        [Op.caller (fun c => { c with value := 2147483647 })]).runner.is_in_state
          StateId.StateA = true) ∧
    ((Runner.run TestFSM (Runner.ctor TestFSM StateId.StateA basic_contains_StateA rfl {})
        [Op.caller (fun c => { c with value := 2147483647 }),
          Op.update basic_static_asserts]).ctx.value = -2147483648 ∧
      (Runner.run TestFSM (Runner.ctor TestFSM StateId.StateA basic_contains_StateA rfl {})
        [Op.caller (fun c => { c with value := 2147483647 }),
          Op.update basic_static_asserts]).runner.is_in_state StateId.StateA = true ∧
      (Runner.run TestFSM (Runner.ctor TestFSM StateId.StateA basic_contains_StateA rfl {})
        [Op.caller (fun c => { c with value := 2147483647 }),
          Op.update basic_static_asserts]).ctx.value ≠ INT_MAX + 1) ∧
    ((Runner.run TestFSM (Runner.ctor TestFSM StateId.StateA basic_contains_StateA rfl {})
        (List.replicate 2147483646 (Op.update basic_static_asserts))).ctx
        = { value := INT_MAX, enter_called := true, update_called := true } ∧
      (Runner.run TestFSM (Runner.ctor TestFSM StateId.StateA basic_contains_StateA rfl {})
        (List.replicate 2147483646 (Op.update basic_static_asserts))).runner.is_in_state
          StateId.StateA = true) ∧
    ((Runner.run TestFSM (Runner.ctor TestFSM StateId.StateA basic_contains_StateA rfl {})
        (List.replicate 2147483647 (Op.update basic_static_asserts))).ctx.value = -2147483648 ∧
      (Runner.run TestFSM (Runner.ctor TestFSM StateId.StateA basic_contains_StateA rfl {})
        (List.replicate 2147483647 (Op.update basic_static_asserts))).runner.is_in_state
          StateId.StateA = true) := by
  obtain ⟨c1, h1⟩ := basic_run_invariant 2147483646
  obtain ⟨c2, h2⟩ := basic_run_invariant 2147483647
  rw [h1, h2]
  refine ⟨⟨rfl, rfl⟩, ⟨rfl, rfl, by decide⟩, ⟨?_, rfl⟩, ⟨?_, rfl⟩⟩
  · have hv : int_wrap (1 + ((2147483646 : Nat) : Int)) = INT_MAX := by
      unfold int_wrap INT_MAX
      norm_num
    simp only [hv]
    rfl
  · show int_wrap (1 + ((2147483647 : Nat) : Int)) = -2147483648
    unfold int_wrap
    norm_num

/-- C14, amended. Two-state scenario: in the machine of the basic test, an
update with the flag clear keeps the active state and stores the `int` sum of
value and 1 in StateA, of value and 10 in StateB; when value is an `int` and
the sum does not exceed INT_MAX, the value has increased by exactly 1, or by
exactly 10. An update with the flag set changes state and ends with the value
the entered state sets in `on_enter`, 10 entering StateB and 1 entering
StateA, whatever the value before. The run of the specification: construct
gives value 1 in StateA; update gives 2 in StateA; with the flag set update
gives 10 in StateB; with the flag clear again update gives 20 in StateB. -/
theorem two_state_scenario :
    (∀ ctx : TestContext, ctx.should_transition = false →
      Runner.update TestFSM basic_static_asserts ⟨.alt StateId.StateA basic_contains_StateA ()⟩ ctx
        = { runner := ⟨.alt StateId.StateA basic_contains_StateA ()⟩
            ctx := { ctx with update_called := true, value := int_add ctx.value 1 }
            calls := [Call.on_update StateId.StateA] }) ∧
    (∀ ctx : TestContext, ctx.should_transition = false →
      INT_MIN ≤ ctx.value → ctx.value + 1 ≤ INT_MAX →
      Runner.update TestFSM basic_static_asserts ⟨.alt StateId.StateA basic_contains_StateA ()⟩ ctx
        = { runner := ⟨.alt StateId.StateA basic_contains_StateA ()⟩
            ctx := { ctx with update_called := true, value := ctx.value + 1 }
            calls := [Call.on_update StateId.StateA] }) ∧
    (∀ ctx : TestContext, ctx.should_transition = false →
      Runner.update TestFSM basic_static_asserts ⟨.alt StateId.StateB basic_contains_StateB ()⟩ ctx
        = { runner := ⟨.alt StateId.StateB basic_contains_StateB ()⟩
            ctx := { ctx with update_called := true, value := int_add ctx.value 10 }
            calls := [Call.on_update StateId.StateB] }) ∧
    (∀ ctx : TestContext, ctx.should_transition = false →
      INT_MIN ≤ ctx.value → ctx.value + 10 ≤ INT_MAX →
      Runner.update TestFSM basic_static_asserts ⟨.alt StateId.StateB basic_contains_StateB ()⟩ ctx
        = { runner := ⟨.alt StateId.StateB basic_contains_StateB ()⟩
            ctx := { ctx with update_called := true, value := ctx.value + 10 }
            calls := [Call.on_update StateId.StateB] }) ∧
    (∀ ctx : TestContext, ctx.should_transition = true →
      (Runner.update TestFSM basic_static_asserts
          ⟨.alt StateId.StateA basic_contains_StateA ()⟩ ctx).runner
        = ⟨.alt StateId.StateB basic_contains_StateB ()⟩ ∧
      (Runner.update TestFSM basic_static_asserts
          ⟨.alt StateId.StateA basic_contains_StateA ()⟩ ctx).ctx.value = 10) ∧
    (∀ ctx : TestContext, ctx.should_transition = true →
      (Runner.update TestFSM basic_static_asserts
          ⟨.alt StateId.StateB basic_contains_StateB ()⟩ ctx).runner
        = ⟨.alt StateId.StateA basic_contains_StateA ()⟩ ∧
      (Runner.update TestFSM basic_static_asserts
          ⟨.alt StateId.StateB basic_contains_StateB ()⟩ ctx).ctx.value = 1) ∧
    ((Runner.ctor TestFSM StateId.StateA basic_contains_StateA rfl {}).ctx.value = 1 ∧
      (Runner.ctor TestFSM StateId.StateA basic_contains_StateA rfl {}).runner.is_in_state
        StateId.StateA = true) ∧
    ((Runner.run TestFSM (Runner.ctor TestFSM StateId.StateA basic_contains_StateA rfl {})
        [Op.update basic_static_asserts]).ctx.value = 2 ∧
      (Runner.run TestFSM (Runner.ctor TestFSM StateId.StateA basic_contains_StateA rfl {})
        [Op.update basic_static_asserts]).runner.is_in_state StateId.StateA = true) ∧
    ((Runner.run TestFSM (Runner.ctor TestFSM StateId.StateA basic_contains_StateA rfl {})
        [Op.update basic_static_asserts,
          Op.caller (fun c => { c with should_transition := true }),
          Op.update basic_static_asserts]).ctx.value = 10 ∧
      (Runner.run TestFSM (Runner.ctor TestFSM StateId.StateA basic_contains_StateA rfl {})
        [Op.update basic_static_asserts,
          Op.caller (fun c => { c with should_transition := true }),
          Op.update basic_static_asserts]).runner.is_in_state StateId.StateB = true) ∧
    ((Runner.run TestFSM (Runner.ctor TestFSM StateId.StateA basic_contains_StateA rfl {})
        [Op.update basic_static_asserts,
          Op.caller (fun c => { c with should_transition := true }),
          Op.update basic_static_asserts,
          Op.caller (fun c => { c with should_transition := false }),
          Op.update basic_static_asserts]).ctx.value = 20 ∧
      (Runner.run TestFSM (Runner.ctor TestFSM StateId.StateA basic_contains_StateA rfl {})
        [Op.update basic_static_asserts,
          Op.caller (fun c => { c with should_transition := true }),
          Op.update basic_static_asserts,
          Op.caller (fun c => { c with should_transition := false }),
          Op.update basic_static_asserts]).runner.is_in_state StateId.StateB = true) := by
  refine ⟨basic_update_stay_A, ?_, basic_update_stay_B, ?_, ?_, ?_,
    ⟨rfl, rfl⟩, ⟨rfl, rfl⟩, ⟨rfl, rfl⟩, ⟨rfl, rfl⟩⟩
  · intro ctx h hlo hhi
    rw [basic_update_stay_A ctx h]
    have hv : int_add ctx.value 1 = ctx.value + 1 :=
      int_wrap_of_range _ (by unfold INT_MIN at *; omega) hhi
    rw [hv]
  · intro ctx h hlo hhi
    rw [basic_update_stay_B ctx h]
    have hv : int_add ctx.value 10 = ctx.value + 10 :=
      int_wrap_of_range _ (by unfold INT_MIN at *; omega) hhi
    rw [hv]
  · intro ctx h
    obtain ⟨v, e, x, u, f⟩ := ctx
    simp only at h
    subst h
    exact ⟨rfl, rfl⟩
  · intro ctx h
    obtain ⟨v, e, x, u, f⟩ := ctx
    simp only at h
    subst h
    exact ⟨rfl, rfl⟩

/-- C14 amended, at the two staying updates of
`UTEST(BasicFSM, MultipleTransitions)`: in StateA value 1 becomes 2, in StateB
value 10 becomes 20; both sums are far below INT_MAX. -/
theorem two_state_scenario_witness :
    Runner.update TestFSM basic_static_asserts ⟨.alt StateId.StateA basic_contains_StateA ()⟩
        { value := 1, enter_called := true } =
      { runner := ⟨.alt StateId.StateA basic_contains_StateA ()⟩
        ctx := { value := 2, enter_called := true, update_called := true }
        calls := [Call.on_update StateId.StateA] } ∧
    Runner.update TestFSM basic_static_asserts ⟨.alt StateId.StateB basic_contains_StateB ()⟩
        { value := 10, enter_called := true, exit_called := true, update_called := true } =
      { runner := ⟨.alt StateId.StateB basic_contains_StateB ()⟩
        ctx := { value := 20, enter_called := true, exit_called := true, update_called := true }
        calls := [Call.on_update StateId.StateB] } :=
  ⟨two_state_scenario.2.1 { value := 1, enter_called := true } rfl (by decide) (by decide),
    two_state_scenario.2.2.2.1
      { value := 10, enter_called := true, exit_called := true, update_called := true }
      rfl (by decide) (by decide)⟩

end ClaimsTestBasicFsm2

section ClaimsSimpleWorking2

open SimpleWorking

theorem cycle_state_succ (n : Nat) :
    (cycle_state n = StateId.StateA ∧ cycle_state (n + 1) = StateId.StateB) ∨
    (cycle_state n = StateId.StateB ∧ cycle_state (n + 1) = StateId.StateC) ∨
    (cycle_state n = StateId.StateC ∧ cycle_state (n + 1) = StateId.StateA) := by
  have h3 : n % 3 = 0 ∨ n % 3 = 1 ∨ n % 3 = 2 := by omega
  rcases h3 with h | h | h
  · left
    have h1 : (n + 1) % 3 = 1 := by omega
    simp [cycle_state, h, h1]
  · right; left
    have h1 : (n + 1) % 3 = 2 := by omega
    simp [cycle_state, h, h1]
  · right; right
    have h1 : (n + 1) % 3 = 0 := by omega
    simp [cycle_state, h, h1]

theorem simple_update_step (n : Nat)
    (hS : contains_v (cycle_state n) [.StateA, .StateB, .StateC] = true) (c : Int) :
    Runner.update SimpleFSM simple_static_asserts ⟨.alt (cycle_state n) hS ()⟩ { counter := c } =
      { runner := ⟨.alt (cycle_state (n + 1)) (simple_contains_any _) ()⟩
        ctx := { counter := int_add c 1 }
        calls := [Call.on_update (cycle_state n), Call.on_exit (cycle_state n),
          Call.construct (cycle_state (n + 1)) (), Call.on_enter (cycle_state (n + 1))] } := by
  have key : ∀ (S T : StateId) (h1 : contains_v S [.StateA, .StateB, .StateC] = true)
      (h2 : contains_v T [.StateA, .StateB, .StateC] = true),
      (S = StateId.StateA ∧ T = StateId.StateB) ∨ (S = StateId.StateB ∧ T = StateId.StateC) ∨
        (S = StateId.StateC ∧ T = StateId.StateA) →
      Runner.update SimpleFSM simple_static_asserts ⟨.alt S h1 ()⟩ { counter := c } =
        { runner := ⟨.alt T h2 ()⟩
          ctx := { counter := int_add c 1 }
          calls := [Call.on_update S, Call.on_exit S, Call.construct T (), Call.on_enter T] } := by
    intro S T h1 h2 h
    rcases h with ⟨rfl, rfl⟩ | ⟨rfl, rfl⟩ | ⟨rfl, rfl⟩ <;> rfl
  exact key _ _ hS _ (cycle_state_succ n)

theorem simple_run_invariant (n : Nat) :
    ∃ (h : contains_v (cycle_state n) [.StateA, .StateB, .StateC] = true)
      (calls : List (Call Args)),
      Runner.run SimpleFSM (Runner.ctor SimpleFSM StateId.StateA simple_contains_StateA rfl
          { counter := 0 }) (List.replicate n (Op.update simple_static_asserts)) =
        { runner := ⟨.alt (cycle_state n) h ()⟩
          ctx := { counter := int_wrap (n : Int) }
          calls := calls } := by
  induction n with
  | zero => exact ⟨simple_contains_StateA, _, rfl⟩
  | succ n ih =>
    obtain ⟨h, calls, hrun⟩ := ih
    refine ⟨simple_contains_any _, calls ++ [Call.on_update (cycle_state n),
      Call.on_exit (cycle_state n), Call.construct (cycle_state (n + 1)) (),
      Call.on_enter (cycle_state (n + 1))], ?_⟩
    rw [List.replicate_succ', run_append_single, hrun]
    simp only [Runner.exec, simple_update_step n h]
    have hv : int_add (int_wrap (n : Int)) 1 = int_wrap ((n + 1 : Nat) : Int) := by
      unfold int_add
      rw [int_wrap_add_wrap]
      congr 1
    rw [hv]

end ClaimsSimpleWorking2
section ClaimsSimpleWorking3

open SimpleWorking

/-- C21 as stated fails at n = 2147483648: after 2147483647 updates the
counter is INT_MAX with StateB active, and the next `ctx.counter++` overflows
the `int`: after 2147483648 updates the counter is -2147483648 in the model,
not 2147483648, with StateC active. -/
theorem three_state_counter_overflow :
    ((Runner.run SimpleFSM (Runner.ctor SimpleFSM StateId.StateA simple_contains_StateA rfl
        { counter := 0 }) (List.replicate 2147483647 (Op.update simple_static_asserts))).ctx.counter
        = INT_MAX ∧
      (Runner.run SimpleFSM (Runner.ctor SimpleFSM StateId.StateA simple_contains_StateA rfl
        { counter := 0 }) (List.replicate 2147483647
          (Op.update simple_static_asserts))).runner.is_in_state StateId.StateB = true) ∧
    ((Runner.run SimpleFSM (Runner.ctor SimpleFSM StateId.StateA simple_contains_StateA rfl
        { counter := 0 }) (List.replicate 2147483648 (Op.update simple_static_asserts))).ctx.counter
        = -2147483648 ∧
      (Runner.run SimpleFSM (Runner.ctor SimpleFSM StateId.StateA simple_contains_StateA rfl
        { counter := 0 }) (List.replicate 2147483648 (Op.update simple_static_asserts))).ctx.counter
        ≠ 2147483648 ∧
      (Runner.run SimpleFSM (Runner.ctor SimpleFSM StateId.StateA simple_contains_StateA rfl
        { counter := 0 }) (List.replicate 2147483648
          (Op.update simple_static_asserts))).runner.is_in_state StateId.StateC = true) := by
  obtain ⟨h1, c1, hrun1⟩ := simple_run_invariant 2147483647
  obtain ⟨h2, c2, hrun2⟩ := simple_run_invariant 2147483648
  rw [hrun1, hrun2]
  have hv1 : int_wrap ((2147483647 : Nat) : Int) = INT_MAX := by
    unfold int_wrap INT_MAX
    norm_num
  have hv2 : int_wrap ((2147483648 : Nat) : Int) = -2147483648 := by
    unfold int_wrap
    norm_num
  have hs1 : cycle_state 2147483647 = StateId.StateB := by decide
  have hs2 : cycle_state 2147483648 = StateId.StateC := by decide
  refine ⟨⟨hv1, ?_⟩, ⟨hv2, ?_, ?_⟩⟩
  · simp [Runner.is_in_state, hs1]
  · show int_wrap ((2147483648 : Nat) : Int) ≠ 2147483648
    rw [hv2]
    decide
  · simp [Runner.is_in_state, hs2]

/-- C21, amended. Three-state cycle: in the machine of
`samples/simple_working.cpp`, built in StateA on counter 0, for every n up to
INT_MAX = 2147483647 the counter after n updates is n and the active state is
StateA, StateB or StateC as n leaves remainder 0, 1 or 2 modulo 3; each of
those n updates makes one `on_update` and one `on_exit` of the state it finds,
and the construction and one `on_enter` of the following state. After the 6
updates of the sample the counter is 6 and the Runner is back in StateA. -/
theorem three_state_cycle (n : Nat) (hn : (n : Int) ≤ INT_MAX) :
    (Runner.run SimpleFSM (Runner.ctor SimpleFSM StateId.StateA simple_contains_StateA rfl
        { counter := 0 }) (List.replicate n (Op.update simple_static_asserts))).ctx.counter
      = (n : Int) ∧
    (Runner.run SimpleFSM (Runner.ctor SimpleFSM StateId.StateA simple_contains_StateA rfl
        { counter := 0 }) (List.replicate n (Op.update simple_static_asserts))).runner.is_in_state
      (cycle_state n) = true ∧
    (∀ k : Nat, k < n →
      (Runner.update SimpleFSM simple_static_asserts
          (Runner.run SimpleFSM (Runner.ctor SimpleFSM StateId.StateA simple_contains_StateA rfl
            { counter := 0 }) (List.replicate k (Op.update simple_static_asserts))).runner
          (Runner.run SimpleFSM (Runner.ctor SimpleFSM StateId.StateA simple_contains_StateA rfl
            { counter := 0 }) (List.replicate k (Op.update simple_static_asserts))).ctx).calls
        = [Call.on_update (cycle_state k), Call.on_exit (cycle_state k),
            Call.construct (cycle_state (k + 1)) (), Call.on_enter (cycle_state (k + 1))]) ∧
    ((Runner.run SimpleFSM (Runner.ctor SimpleFSM StateId.StateA simple_contains_StateA rfl
        { counter := 0 }) (List.replicate 6 (Op.update simple_static_asserts))).ctx.counter = 6 ∧
      (Runner.run SimpleFSM (Runner.ctor SimpleFSM StateId.StateA simple_contains_StateA rfl
        { counter := 0 }) (List.replicate 6 (Op.update simple_static_asserts))).runner.is_in_state
        StateId.StateA = true) := by
  refine ⟨?_, ?_, ?_, rfl, rfl⟩
  · obtain ⟨h, calls, hrun⟩ := simple_run_invariant n
    rw [hrun]
    exact int_wrap_of_range _ (by unfold INT_MIN; omega) hn
  · obtain ⟨h, calls, hrun⟩ := simple_run_invariant n
    rw [hrun]
    simp [Runner.is_in_state]
  · intro k _
    obtain ⟨h, calls, hrun⟩ := simple_run_invariant k
    rw [hrun, simple_update_step k h]

/-- C21 amended, at the 6 updates of `main` in `samples/simple_working.cpp`:
the counter is 6, the Runner is in StateA, and the sixth update left StateC
for StateA. -/
theorem three_state_cycle_witness :
    (Runner.run SimpleFSM (Runner.ctor SimpleFSM StateId.StateA simple_contains_StateA rfl
        { counter := 0 }) (List.replicate 6 (Op.update simple_static_asserts))).ctx.counter = 6 ∧
    (Runner.run SimpleFSM (Runner.ctor SimpleFSM StateId.StateA simple_contains_StateA rfl
        { counter := 0 }) (List.replicate 6 (Op.update simple_static_asserts))).runner.is_in_state
      StateId.StateA = true ∧
    (Runner.update SimpleFSM simple_static_asserts
        (Runner.run SimpleFSM (Runner.ctor SimpleFSM StateId.StateA simple_contains_StateA rfl
          { counter := 0 }) (List.replicate 5 (Op.update simple_static_asserts))).runner
        (Runner.run SimpleFSM (Runner.ctor SimpleFSM StateId.StateA simple_contains_StateA rfl
          { counter := 0 }) (List.replicate 5 (Op.update simple_static_asserts))).ctx).calls
      = [Call.on_update StateId.StateC, Call.on_exit StateId.StateC,
          Call.construct StateId.StateA (), Call.on_enter StateId.StateA] :=
  ⟨(three_state_cycle 6 (by decide)).1, (three_state_cycle 6 (by decide)).2.1,
    (three_state_cycle 6 (by decide)).2.2.1 5 (by decide)⟩

end ClaimsSimpleWorking3

section Claims3

variable {Context : Type} {ι : Type} [DecidableEq ι] {Args Inst : ι → Type} {States : List ι}

/-- C22. Update on the bootstrap value: on a Runner whose `current_` holds
`std::monostate`, `update` calls nothing, leaves the context as it is and
leaves `std::monostate` in place; and no Runner obtained from the constructor,
whatever operations follow, holds `std::monostate`. -/
theorem update_on_bootstrap_value (M : FSM Context Args Inst States)
    (hsa : M.targets_declared = true) (ctx : Context) :
    Runner.update M hsa ⟨.monostate⟩ ctx =
      { runner := ⟨.monostate⟩, ctx := ctx, calls := [] } ∧
    (∀ (S : ι) (h : contains_v S States = true) (hd : (M.types S).empty_pack.isSome = true)
      (ctx0 : Context) (ops : List (Op M)),
      (Runner.run M (Runner.ctor M S h hd ctx0) ops).runner.current_ ≠ StateVariant.monostate) := by
  refine ⟨rfl, ?_⟩
  intro S h hd ctx0 ops
  obtain ⟨T, hT, s, hcur, _⟩ := run_bracket M ops _ (ctor_bracket M S h hd ctx0)
  rw [hcur]
  intro hEq
  cases hEq

/-- C24. Forced re-entry resets the instance: with a marked declared Target
already active, whatever its instance data, `force_transition<Target>` calls
`on_exit` on the old instance, constructs a Target from the empty pack and
calls `on_enter` on that new instance, which becomes the stored one; the old
instance reaches the result only through what its `on_exit` writes to the
context. An update whose Transition targets the active state keeps the
instance as `on_update` left it and constructs nothing. -/
theorem forced_reentry_resets (M : FSM Context Args Inst States) (Target : ι)
    (h : contains_v Target States = true)
    (hreq : M.force_transition_requires Target = true)
    (hd : (M.types Target).empty_pack.isSome = true) (inst : Inst Target) (ctx : Context) :
    Runner.force_transition M ⟨.alt Target h inst⟩ Target hreq hd ctx =
      { runner := ⟨.alt Target h
          ((M.types Target).on_enter
            ((M.types Target).ctor ((M.types Target).empty_pack.get hd))
            ((M.types Target).on_exit inst ctx).2).1⟩
        ctx := ((M.types Target).on_enter
            ((M.types Target).ctor ((M.types Target).empty_pack.get hd))
            ((M.types Target).on_exit inst ctx).2).2
        calls := [Call.on_exit Target,
          Call.construct Target ((M.types Target).empty_pack.get hd), Call.on_enter Target] } ∧
    (∀ inst2 : Inst Target,
      ((M.types Target).on_exit inst2 ctx).2 = ((M.types Target).on_exit inst ctx).2 →
      Runner.force_transition M ⟨.alt Target h inst2⟩ Target hreq hd ctx =
        Runner.force_transition M ⟨.alt Target h inst⟩ Target hreq hd ctx) ∧
    (∀ (hsa : M.targets_declared = true) (t : Transition Args Target),
      RetType.Val.held _ ((M.types Target).on_update inst ctx).1 = some ⟨Target, t⟩ →
      Runner.update M hsa ⟨.alt Target h inst⟩ ctx =
        { runner := ⟨.alt Target h ((M.types Target).on_update inst ctx).2.1⟩
          ctx := ((M.types Target).on_update inst ctx).2.2
          calls := [Call.on_update Target] }) := by
  refine ⟨rfl, ?_, ?_⟩
  · intro inst2 hEq
    simp only [Runner.force_transition, Runner.switch_to, hEq]
  · intro hsa t hheld
    rw [update_of_held M hsa Target h inst ctx Target t hheld h, apply_transition_self]

end Claims3
theorem marked_requires_MovingState :
    TestHierarchicalFsm.MarkedParentFSM.force_transition_requires
      TestHierarchicalFsm.ParentId.MovingState = true := by
  decide

theorem marked_static_asserts : TestHierarchicalFsm.MarkedParentFSM.targets_declared = true := by
  decide

section ClaimsTestHierarchicalFsm3

open TestHierarchicalFsm

theorem sub_run_step (k : Nat) (hk : k ≤ 12) (w r : Bool) (ps ss : Int) :
    Runner.update SubFSM sub_static_asserts ⟨.alt SubId.SubRun sub_contains_SubRun ()⟩
        { speed := F32.ofUnits ((20 - k) * 2 ^ 148), walking := w, running := r,
          parent_state := ps, sub_state := ss, should_run := false } =
      { runner := ⟨.alt SubId.SubRun sub_contains_SubRun ()⟩
        ctx := { speed := F32.ofUnits ((20 - (k + 1)) * 2 ^ 148), walking := w, running := r,
                 parent_state := ps, sub_state := ss, should_run := false }
        calls := [Call.on_update SubId.SubRun] } := by
  interval_cases k <;> rfl

theorem sub_run_invariant (k : Nat) (hk : k ≤ 13) (w r : Bool) (ps ss : Int) :
    ∃ calls : List (Call SubArgs),
      Runner.run SubFSM
          { runner := ⟨.alt SubId.SubRun sub_contains_SubRun ()⟩
            ctx := { speed := F32.ten, walking := w, running := r, parent_state := ps,
                     sub_state := ss, should_run := false }
            calls := [] }
          (List.replicate k (Op.update sub_static_asserts)) =
        { runner := ⟨.alt SubId.SubRun sub_contains_SubRun ()⟩
          ctx := { speed := F32.ofUnits ((20 - k) * 2 ^ 148), walking := w, running := r,
                   parent_state := ps, sub_state := ss, should_run := false }
          calls := calls } := by
  induction k with
  | zero => exact ⟨[], rfl⟩
  | succ k ih =>
    obtain ⟨calls, hrun⟩ := ih (Nat.le_of_succ_le hk)
    refine ⟨calls ++ [Call.on_update SubId.SubRun], ?_⟩
    rw [List.replicate_succ', run_append_single, hrun]
    simp only [Runner.exec, sub_run_step k (Nat.le_of_succ_le_succ hk) w r ps ss]

theorem sub_run_last_step (w r : Bool) (ps ss : Int) :
    Runner.update SubFSM sub_static_asserts ⟨.alt SubId.SubRun sub_contains_SubRun ()⟩
        { speed := F32.ofUnits ((20 - 13) * 2 ^ 148), walking := w, running := r,
          parent_state := ps, sub_state := ss, should_run := false } =
      { runner := ⟨.alt SubId.SubWalk sub_contains_SubWalk ()⟩
        ctx := { speed := F32.three, walking := true, running := false, parent_state := ps,
                 sub_state := 1, should_run := false }
        calls := [Call.on_update SubId.SubRun, Call.on_exit SubId.SubRun,
          Call.construct SubId.SubWalk (), Call.on_enter SubId.SubWalk] } :=
  rfl

theorem sub_walk_step_after (ps : Int) :
    Runner.update SubFSM sub_static_asserts ⟨.alt SubId.SubWalk sub_contains_SubWalk ()⟩
        { speed := F32.three, walking := true, running := false, parent_state := ps,
          sub_state := 1, should_run := false } =
      { runner := ⟨.alt SubId.SubWalk sub_contains_SubWalk ()⟩
        ctx := { speed := F32.ofUnits (13002342 * 2 ^ 127), walking := true, running := false,
                 parent_state := ps, sub_state := 1, should_run := false }
        calls := [Call.on_update SubId.SubWalk] } :=
  rfl

/-- C23. Run decays back to Walk: in the nested machine with SubRun active,
speed 10.0 and should_run false, after k updates for k up to 13 the Runner is
still in SubRun and speed is 10.0 minus k times 0.5; the 14th update lowers
speed to 3.0 and switches to SubWalk; after the 15th the Runner is still in
SubWalk, with sub_state 1, walking true and running false. -/
theorem run_decays_to_walk (ctx : HierContext) (hspeed : ctx.speed = F32.ten)
    (hrun : ctx.should_run = false) :
    (∀ k : Nat, k ≤ 13 →
      (Runner.run SubFSM
          { runner := ⟨.alt SubId.SubRun sub_contains_SubRun ()⟩, ctx := ctx, calls := [] }
          (List.replicate k (Op.update sub_static_asserts))).runner.is_in_state
        SubId.SubRun = true ∧
      (Runner.run SubFSM
          { runner := ⟨.alt SubId.SubRun sub_contains_SubRun ()⟩, ctx := ctx, calls := [] }
          (List.replicate k (Op.update sub_static_asserts))).ctx.speed
        = F32.ofUnits ((20 - k) * 2 ^ 148)) ∧
    (F32.sub (F32.ofUnits (7 * 2 ^ 148)) F32.half = F32.three ∧
      F32.le F32.three F32.three = true) ∧
    ((Runner.run SubFSM
          { runner := ⟨.alt SubId.SubRun sub_contains_SubRun ()⟩, ctx := ctx, calls := [] }
          (List.replicate 14 (Op.update sub_static_asserts))).runner
        = ⟨.alt SubId.SubWalk sub_contains_SubWalk ()⟩ ∧
      (Runner.run SubFSM
          { runner := ⟨.alt SubId.SubRun sub_contains_SubRun ()⟩, ctx := ctx, calls := [] }
          (List.replicate 14 (Op.update sub_static_asserts))).ctx
        = { ctx with speed := F32.three, sub_state := 1, walking := true, running := false }) ∧
    ((Runner.run SubFSM
          { runner := ⟨.alt SubId.SubRun sub_contains_SubRun ()⟩, ctx := ctx, calls := [] }
          (List.replicate 15 (Op.update sub_static_asserts))).runner
        = ⟨.alt SubId.SubWalk sub_contains_SubWalk ()⟩ ∧
      (Runner.run SubFSM
          { runner := ⟨.alt SubId.SubRun sub_contains_SubRun ()⟩, ctx := ctx, calls := [] }
          (List.replicate 15 (Op.update sub_static_asserts))).ctx
        = { ctx with
            speed := F32.ofUnits (13002342 * 2 ^ 127), sub_state := 1, walking := true,
            running := false }) := by
  obtain ⟨sp, w, r, ps, ss, sr⟩ := ctx
  simp only at hspeed hrun
  subst hspeed hrun
  obtain ⟨calls13, h13⟩ := sub_run_invariant 13 (Nat.le_refl 13) w r ps ss
  have h14 : Runner.run SubFSM
        { runner := ⟨.alt SubId.SubRun sub_contains_SubRun ()⟩
          ctx := { speed := F32.ten, walking := w, running := r, parent_state := ps,
                   sub_state := ss, should_run := false }
          calls := [] }
        (List.replicate 14 (Op.update sub_static_asserts)) =
      { runner := ⟨.alt SubId.SubWalk sub_contains_SubWalk ()⟩
        ctx := { speed := F32.three, walking := true, running := false, parent_state := ps,
                 sub_state := 1, should_run := false }
        calls := calls13 ++ [Call.on_update SubId.SubRun, Call.on_exit SubId.SubRun,
          Call.construct SubId.SubWalk (), Call.on_enter SubId.SubWalk] } := by
    rw [List.replicate_succ', run_append_single, h13]
    simp only [Runner.exec, sub_run_last_step w r ps ss]
  have h15 : Runner.run SubFSM
        { runner := ⟨.alt SubId.SubRun sub_contains_SubRun ()⟩
          ctx := { speed := F32.ten, walking := w, running := r, parent_state := ps,
                   sub_state := ss, should_run := false }
          calls := [] }
        (List.replicate 15 (Op.update sub_static_asserts)) =
      { runner := ⟨.alt SubId.SubWalk sub_contains_SubWalk ()⟩
        ctx := { speed := F32.ofUnits (13002342 * 2 ^ 127), walking := true, running := false,
                 parent_state := ps, sub_state := 1, should_run := false }
        calls := (calls13 ++ [Call.on_update SubId.SubRun, Call.on_exit SubId.SubRun,
          Call.construct SubId.SubWalk (), Call.on_enter SubId.SubWalk]) ++
          [Call.on_update SubId.SubWalk] } := by
    rw [List.replicate_succ', run_append_single, h14]
    simp only [Runner.exec, sub_walk_step_after ps]
  refine ⟨?_, ⟨rfl, rfl⟩, ?_, ?_⟩
  · intro k hk
    obtain ⟨calls, hrun⟩ := sub_run_invariant k hk w r ps ss
    rw [hrun]
    exact ⟨rfl, rfl⟩
  · rw [h14]
    exact ⟨rfl, rfl⟩
  · rw [h15]
    exact ⟨rfl, rfl⟩

/-- C23 at the input of `UTEST(HierarchicalFSM, SubStateTransition)`: the
context as the test has it once SubRun is entered and should_run is reset. -/
theorem run_decays_to_walk_witness :
    (Runner.run SubFSM
          { runner := ⟨.alt SubId.SubRun sub_contains_SubRun ()⟩
            ctx := { speed := F32.ten, running := true, sub_state := 2 }
            calls := [] }
          (List.replicate 13 (Op.update sub_static_asserts))).ctx.speed
        = F32.ofUnits (7 * 2 ^ 148) ∧
    (Runner.run SubFSM
          { runner := ⟨.alt SubId.SubRun sub_contains_SubRun ()⟩
            ctx := { speed := F32.ten, running := true, sub_state := 2 }
            calls := [] }
          (List.replicate 15 (Op.update sub_static_asserts))).ctx
        = { speed := F32.ofUnits (13002342 * 2 ^ 127), walking := true, running := false,
            sub_state := 1 } :=
  ⟨((run_decays_to_walk { speed := F32.ten, running := true, sub_state := 2 } rfl rfl).1 13
      (by decide)).2,
    (run_decays_to_walk { speed := F32.ten, running := true, sub_state := 2 } rfl
      rfl).2.2.2.2⟩

/-- C24 on the parent machine with MovingState marked: MovingState is active
with a nested Runner in SubRun; the forced re-entry ends with a new nested
Runner in SubWalk, while an update that stays in MovingState keeps the nested
Runner in SubRun. -/
theorem forced_reentry_resets_witness :
    Runner.force_transition MarkedParentFSM
        ⟨.alt ParentId.MovingState parent_contains_MovingState
          (some ⟨.alt SubId.SubRun sub_contains_SubRun ()⟩)⟩
        ParentId.MovingState marked_requires_MovingState rfl
        { speed := F32.ten, running := true, parent_state := 2, sub_state := 2 } =
      { runner := ⟨.alt ParentId.MovingState parent_contains_MovingState
          (some ⟨.alt SubId.SubWalk sub_contains_SubWalk ()⟩)⟩
        ctx := { speed := F32.three, walking := true, running := false, parent_state := 2,
                 sub_state := 1 }
        calls := [Call.on_exit ParentId.MovingState, Call.construct ParentId.MovingState (),
          Call.on_enter ParentId.MovingState] } ∧
    Runner.update MarkedParentFSM marked_static_asserts
        ⟨.alt ParentId.MovingState parent_contains_MovingState
          (some ⟨.alt SubId.SubRun sub_contains_SubRun ()⟩)⟩
        { speed := F32.ten, running := true, parent_state := 2, sub_state := 2 } =
      { runner := ⟨.alt ParentId.MovingState parent_contains_MovingState
          (some ⟨.alt SubId.SubRun sub_contains_SubRun ()⟩)⟩
        ctx := { speed := F32.ofUnits (19 * 2 ^ 148), running := true, parent_state := 2,
                 sub_state := 2 }
        calls := [Call.on_update ParentId.MovingState] } :=
  ⟨(forced_reentry_resets MarkedParentFSM ParentId.MovingState parent_contains_MovingState
      marked_requires_MovingState rfl (some ⟨.alt SubId.SubRun sub_contains_SubRun ()⟩)
      { speed := F32.ten, running := true, parent_state := 2, sub_state := 2 }).1.trans rfl,
    ((forced_reentry_resets MarkedParentFSM ParentId.MovingState parent_contains_MovingState
      marked_requires_MovingState rfl (some ⟨.alt SubId.SubRun sub_contains_SubRun ()⟩)
      { speed := F32.ten, running := true, parent_state := 2, sub_state := 2 }).2.2
      marked_static_asserts (make_transition ParentId.MovingState ()) rfl).trans rfl⟩

end ClaimsTestHierarchicalFsm3

section ClaimsTestBasicFsm3

open TestBasicFsm

/-- C22 on the machine of the basic test: `update` on a Runner holding
`std::monostate` changes nothing, and the Runner built by the constructor
and updated once does not hold it. -/
theorem update_on_bootstrap_value_witness :
    Runner.update TestFSM basic_static_asserts ⟨.monostate⟩ { value := 7 } =
      { runner := ⟨.monostate⟩, ctx := { value := 7 }, calls := [] } ∧
    (Runner.run TestFSM (Runner.ctor TestFSM StateId.StateA basic_contains_StateA rfl {})
      [Op.update basic_static_asserts]).runner.current_ ≠ StateVariant.monostate :=
  ⟨(update_on_bootstrap_value TestFSM basic_static_asserts { value := 7 }).1,
    (update_on_bootstrap_value TestFSM basic_static_asserts { value := 7 }).2
      StateId.StateA basic_contains_StateA rfl {} _⟩

end ClaimsTestBasicFsm3

end mameFSM
